import Mathlib

/-!
Verification of the us-school-districts-api spatial lookup service.

The definitions below are a shallow embedding of the TypeScript source:

* `JsNum`, `validateCoordinates`   — the coordinate validation performed by the
  `POST /lookup` route in `src/server.ts` (lines 487-529); JavaScript numbers
  are modelled as rationals extended with NaN and the two infinities, with the
  IEEE comparison convention that every comparison against NaN is false.
* `LRUCache`                       — `src/utils/LRUCache.ts`, modelled over an
  association list kept in JavaScript `Map` insertion order (head = least
  recently used, tail = most recently used).
* `parseIntBase10`, `formatGradeLevel` — the grade-code normalization helper
  `formatGradeLevel` of `src/server.ts` (lines 278-295), including the
  `parseInt(grade, 10)` semantics of a leading optional sign followed by the
  longest digit prefix.
* `buildSpatialIndex`, `loadDistrictGeometry`, `lookupSchoolDistrict`,
  `postLookup`, `postBatch`        — the spatial index build, the on-demand
  geometry decoding fronted by the LRU, the lookup helper, and the two HTTP
  routes of `src/server.ts`.  The geometry type, the point-in-polygon test,
  the simplification pass and the bounding-box computation are abstracted as
  parameters, since the claims under scrutiny do not depend on their internals.
* `transformDistrict`, `loadDistrictsList`, `lookupSchoolDistrictMem` — the
  alternative all-in-memory design (`src/lib/school-district-cache.ts` and
  `src/functions/lookupSchoolDistrict.ts`).
-/

set_option linter.unusedVariables false

-- ---------------------------------------------------------------------------
-- JavaScript numbers and coordinate validation (src/server.ts, POST /lookup)
-- ---------------------------------------------------------------------------

/-- A JavaScript number: a finite rational, NaN, or one of the two infinities. -/
inductive JsNum where
  | num (q : ℚ)
  | nan
  | posInf
  | negInf
deriving DecidableEq

/-- `Number.isNaN`. -/
def JsNum.isNaN : JsNum → Bool
  | .nan => true
  | _ => false

/-- The IEEE `<` comparison: any comparison involving NaN is false. -/
def JsNum.lt : JsNum → JsNum → Bool
  | .nan, _ => false
  | _, .nan => false
  | .num a, .num b => decide (a < b)
  | .negInf, .negInf => false
  | .negInf, _ => true
  | _, .negInf => false
  | .posInf, _ => false
  | .num _, .posInf => true

/-- Extract the finite value; only used after validation has excluded NaN and
the infinities. -/
def JsNum.toQ : JsNum → ℚ
  | .num q => q
  | _ => 0

/-- The three 400-level rejections of the `/lookup` route. -/
inductive CoordError where
  /-- "Invalid coordinates: lat and lng must be numbers" -/
  | notFinite
  /-- "Latitude out of bounds for US territories (18 to 72)" -/
  | latOutOfRange
  /-- "Longitude out of bounds for US territories (-180 to -65)" -/
  | lngOutOfRange
deriving DecidableEq

/-- The validation ladder of the `/lookup` route (src/server.ts lines 494-523):
`Number.isNaN` check, then `lat < 18 || lat > 72`, then
`lng < -180 || lng > -65`.  `none` means the coordinate is accepted. -/
def validateCoordinates (lat lng : JsNum) : Option CoordError :=
  if lat.isNaN || lng.isNaN then some .notFinite
  else if lat.lt (.num 18) || (JsNum.num 72).lt lat then some .latOutOfRange
  else if lng.lt (.num (-180)) || (JsNum.num (-65)).lt lng then some .lngOutOfRange
  else none

/-- `lat` denotes a value outside `[18, 72]` (NaN is not "outside"; it is
covered by the finiteness check). -/
def latOutsideRange : JsNum → Bool
  | .num q => decide (q < 18) || decide (72 < q)
  | .nan => false
  | .posInf => true
  | .negInf => true

/-- `lng` denotes a value outside `[-180, -65]`. -/
def lngOutsideRange : JsNum → Bool
  | .num q => decide (q < -180) || decide (-65 < q)
  | .nan => false
  | .posInf => true
  | .negInf => true

/-- The hypothesis of claim C3: a non-finite component or a component outside
the accepted US range. -/
def badCoordinate (lat lng : JsNum) : Bool :=
  lat.isNaN || lng.isNaN || latOutsideRange lat || lngOutsideRange lng

-- ---------------------------------------------------------------------------
-- LRU cache (src/utils/LRUCache.ts)
-- ---------------------------------------------------------------------------

/-- First-match lookup in an association list; mirrors `Map.get` (keys are
unique in every state the cache reaches). -/
def lookupKey {α : Type} : List (String × α) → String → Option α
  | [], _ => none
  | (k', v) :: rest, k => if k' = k then some v else lookupKey rest k

/-- Remove every pair with the given key; mirrors `Map.delete` (exactly one
entry in every state the cache reaches). -/
def eraseKey {α : Type} : List (String × α) → String → List (String × α)
  | [], _ => []
  | (k', v) :: rest, k => if k' = k then eraseKey rest k else (k', v) :: eraseKey rest k

/-- The LRU cache: `maxSize` and the backing `Map`, as an association list in
insertion order (head = least recently used). -/
structure LRUCache (α : Type) where
  maxSize : Nat
  cache : List (String × α)
deriving DecidableEq

/-- `new LRUCache(maxSize)`. -/
def LRUCache.empty (α : Type) (maxSize : Nat) : LRUCache α :=
  { maxSize := maxSize, cache := [] }

/-- `LRUCache.get`: on a hit the entry is deleted and re-inserted at the
most-recently-used end; on a miss the cache is untouched. -/
def LRUCache.get {α : Type} (c : LRUCache α) (k : String) : Option α × LRUCache α :=
  match lookupKey c.cache k with
  | none => (none, c)
  | some v => (some v, { c with cache := eraseKey c.cache k ++ [(k, v)] })

/-- `LRUCache.set`: delete an existing entry to reorder it; otherwise, when
`size >= maxSize`, delete the first (least recently used) entry if one exists;
then insert at the most-recently-used end. -/
def LRUCache.set {α : Type} (c : LRUCache α) (k : String) (v : α) : LRUCache α :=
  if (lookupKey c.cache k).isSome then
    { c with cache := eraseKey c.cache k ++ [(k, v)] }
  else if c.maxSize ≤ c.cache.length then
    match c.cache with
    | [] => { c with cache := [(k, v)] }
    | _ :: rest => { c with cache := rest ++ [(k, v)] }
  else
    { c with cache := c.cache ++ [(k, v)] }

/-- `LRUCache.size`. -/
def LRUCache.size {α : Type} (c : LRUCache α) : Nat := c.cache.length

/-- `LRUCache.has`. -/
def LRUCache.hasKey {α : Type} (c : LRUCache α) (k : String) : Bool :=
  (lookupKey c.cache k).isSome

/-- One client operation against the cache. -/
inductive LRUOp (α : Type) where
  | get (k : String)
  | set (k : String) (v : α)

/-- Run a sequence of operations against the cache. -/
def LRUCache.run {α : Type} (c : LRUCache α) : List (LRUOp α) → LRUCache α
  | [] => c
  | .get k :: ops => ((c.get k).2).run ops
  | .set k v :: ops => (c.set k v).run ops

/-- Insert a list of key-value pairs in order. -/
def LRUCache.fillAll {α : Type} (c : LRUCache α) (ps : List (String × α)) : LRUCache α :=
  ps.foldl (fun c p => c.set p.1 p.2) c

-- ---------------------------------------------------------------------------
-- Grade-level formatting (src/server.ts, formatGradeLevel)
-- ---------------------------------------------------------------------------

/-- Numeric value of a digit character. -/
def digitVal (c : Char) : Nat := c.toNat - 48

/-- Longest digit prefix. -/
def leadingDigits (cs : List Char) : List Char := cs.takeWhile Char.isDigit

/-- Decimal value of a digit list. -/
def digitsToNat (cs : List Char) : Nat := cs.foldl (fun a c => 10 * a + digitVal c) 0

/-- JavaScript whitespace skipped by `parseInt` (the common cases). -/
def isJsSpace (c : Char) : Bool := c = ' ' || c = '\t' || c = '\n' || c = '\r'

/-- `parseInt(s, 10)`: skip leading whitespace, read an optional sign, then the
longest digit prefix; NaN (here `none`) when no digit follows. -/
def parseIntBase10 (s : String) : Option Int :=
  match s.data.dropWhile isJsSpace with
  | [] => none
  | c :: rest =>
    if c = '-' then
      let ds := leadingDigits rest
      if ds.isEmpty then none else some (-(digitsToNat ds : Int))
    else if c = '+' then
      let ds := leadingDigits rest
      if ds.isEmpty then none else some ((digitsToNat ds : Int))
    else
      let ds := leadingDigits (c :: rest)
      if ds.isEmpty then none else some ((digitsToNat ds : Int))

/-- Decimal digits of a natural number, most significant first (fuel-indexed so
that the definition reduces in the kernel). -/
def natDigitsAux : Nat → Nat → List Char
  | 0, _ => []
  | fuel + 1, n =>
    if n < 10 then [Char.ofNat (48 + n)]
    else natDigitsAux fuel (n / 10) ++ [Char.ofNat (48 + n % 10)]

/-- Decimal digits of a natural number, most significant first. -/
def natDigits (n : Nat) : List Char := natDigitsAux (n + 1) n

/-- `Number.prototype.toString` restricted to integers. -/
def jsIntToString (n : Int) : String :=
  if n < 0 then String.mk ('-' :: natDigits n.natAbs)
  else String.mk (natDigits n.toNat)

/-- `formatGradeLevel` (src/server.ts lines 278-295): null/empty pass out as
null; `PK`/`KG`/`UG` are mapped; otherwise `parseInt(grade, 10)` is tried and
on success its decimal rendering is returned; otherwise the code is returned
unchanged. -/
def formatGradeLevel (grade : Option String) : Option String :=
  match grade with
  | none => none
  | some g =>
    if g = "" then none
    else if g = "PK" then some "Pre-K"
    else if g = "KG" then some "K"
    else if g = "UG" then some "Ungraded"
    else
      match parseIntBase10 g with
      | some n => some (jsIntToString n)
      | none => some g

/-- Drop leading `'0'` characters, keeping a single `"0"` when nothing is left. -/
def stripLeadingZeros (s : String) : String :=
  let cs := s.data.dropWhile (fun c => c = '0')
  if cs.isEmpty then "0" else String.mk cs

-- ---------------------------------------------------------------------------
-- District store, spatial index and lookup (src/server.ts)
-- ---------------------------------------------------------------------------

/-- GeoJSON geometry type tag. -/
inductive GeoType where
  | polygon
  | multiPolygon
  | otherType
deriving DecidableEq

/-- A raw geometry from the shapefile: its GeoJSON type tag and its coordinate
payload, abstracted as `G`. -/
structure ShapeGeometry (G : Type) where
  typ : GeoType
  raw : G
deriving DecidableEq

/-- The attribute row of a shapefile feature; every field may be absent at
runtime (the TypeScript types are optimistic). -/
structure FeatureProps where
  GEOID : Option String
  NAME : Option String
  LOGRADE : Option String
  HIGRADE : Option String
  ALAND : Option ℚ
  AWATER : Option ℚ
  SCHOOLYEAR : Option String
  STATEFP : Option String
deriving DecidableEq

/-- One record of the shapefile: the geometry and the attribute row, each
possibly absent. -/
structure ShapeRecord (G : Type) where
  geometry : Option (ShapeGeometry G)
  props : Option FeatureProps
deriving DecidableEq

/-- JavaScript truthiness of an optional string: present and non-empty. -/
def truthyStr (s : Option String) : Bool :=
  match s with
  | some s => !(s = "")
  | none => false

/-- `x || null`: an absent or empty string becomes null. -/
def jsOrNull (s : Option String) : Option String :=
  match s with
  | some s => if s = "" then none else some s
  | none => none

/-- `feat.properties?.GEOID`. -/
def recGEOID {G : Type} (rec : ShapeRecord G) : Option String :=
  rec.props.bind (fun p => p.GEOID)

/-- `feat.geometry && (type === 'Polygon' || type === 'MultiPolygon')`. -/
def isPolygonal {G : Type} (rec : ShapeRecord G) : Bool :=
  match rec.geometry with
  | some g => g.typ = GeoType.polygon || g.typ = GeoType.multiPolygon
  | none => false

/-- `DistrictMetadata` (src/types.ts): what the R-tree entry carries.  The
TypeScript type declares `districtId`/`name` as `string`, but the values
actually stored are `feat.properties?.GEOID` / `?.NAME`, which can be
undefined; hence `Option`. -/
structure DistrictMetadata where
  districtId : Option String
  name : Option String
  recordIndex : Nat
deriving DecidableEq

/-- `IndexedDistrict` (src/types.ts): bounding box plus metadata. -/
structure IndexedDistrict where
  minX : ℚ
  minY : ℚ
  maxX : ℚ
  maxY : ℚ
  metadata : DistrictMetadata
deriving DecidableEq

/-- `DistrictProperties` (src/types.ts): the attribute row kept outside the
R-tree. -/
structure DistrictProperties where
  gradeLowest : Option String
  gradeHighest : Option String
  landAreaSqMeters : ℚ
  waterAreaSqMeters : ℚ
  schoolYear : Option String
  stateCode : Option String
deriving DecidableEq

/-- `Map.set`: replace in place when the key exists, otherwise append. -/
def mapSet {β : Type} : List (String × β) → String → β → List (String × β)
  | [], k, v => [(k, v)]
  | (k', v') :: rest, k, v =>
    if k' = k then (k, v) :: rest else (k', v') :: mapSet rest k v

/-- The `DistrictProperties` row built in `buildSpatialIndex`
(`LOGRADE || null`, `ALAND || 0`, …). -/
def mkDistrictProperties (p : FeatureProps) : DistrictProperties :=
  { gradeLowest := jsOrNull p.LOGRADE
    gradeHighest := jsOrNull p.HIGRADE
    landAreaSqMeters := p.ALAND.getD 0
    waterAreaSqMeters := p.AWATER.getD 0
    schoolYear := jsOrNull p.SCHOOLYEAR
    stateCode := jsOrNull p.STATEFP }

/-- The R-tree entry inserted for record `i` (`turfBbox` abstracted as
`bboxOf`). -/
def mkIndexedDistrict {G : Type} (bboxOf : G → ℚ × ℚ × ℚ × ℚ) (i : Nat)
    (g : ShapeGeometry G) (rec : ShapeRecord G) : IndexedDistrict :=
  { minX := (bboxOf g.raw).1
    minY := (bboxOf g.raw).2.1
    maxX := (bboxOf g.raw).2.2.1
    maxY := (bboxOf g.raw).2.2.2
    metadata :=
      { districtId := recGEOID rec
        name := rec.props.bind (fun p => p.NAME)
        recordIndex := i } }

/-- One iteration of the `buildSpatialIndex` read loop: polygonal features are
inserted into the index unconditionally; the attribute row is stored only when
the GEOID is truthy. -/
def buildStep {G : Type} (bboxOf : G → ℚ × ℚ × ℚ × ℚ)
    (acc : List IndexedDistrict × List (String × DistrictProperties))
    (p : Nat × ShapeRecord G) :
    List IndexedDistrict × List (String × DistrictProperties) :=
  let i := p.1
  let feat := p.2
  match feat.geometry with
  | some g =>
    if g.typ = GeoType.polygon || g.typ = GeoType.multiPolygon then
      ( acc.1 ++ [mkIndexedDistrict bboxOf i g feat]
      , match feat.props with
        | some pr =>
          match pr.GEOID with
          | some id => if id = "" then acc.2 else mapSet acc.2 id (mkDistrictProperties pr)
          | none => acc.2
        | none => acc.2 )
    else acc
  | none => acc

/-- `buildSpatialIndex` (src/server.ts lines 300-350): the R-tree contents (in
insertion order) and the `districtPropertiesMap`, built in one pass with a
running record index. -/
def buildSpatialIndex {G : Type} (bboxOf : G → ℚ × ℚ × ℚ × ℚ)
    (records : List (ShapeRecord G)) :
    List IndexedDistrict × List (String × DistrictProperties) :=
  (records.enum).foldl (buildStep bboxOf) ([], [])

/-- The module-level mutable state of src/server.ts that the lookup path
touches. -/
structure ServerState (G : Type) where
  spatialIndex : Option (List IndexedDistrict)
  shapefileRecords : Option (List (ShapeRecord G))
  districtPropertiesMap : List (String × DistrictProperties)
  geometryCache : LRUCache G
  geometryCacheSize : Nat
deriving DecidableEq

/-- The state right after `buildSpatialIndex` has run over `records`, with an
arbitrary geometry-cache state. -/
def mkServerState {G : Type} (bboxOf : G → ℚ × ℚ × ℚ × ℚ) (cacheSize : Nat)
    (records : List (ShapeRecord G)) (cache : LRUCache G) : ServerState G :=
  { spatialIndex := some (buildSpatialIndex bboxOf records).1
    shapefileRecords := some records
    districtPropertiesMap := (buildSpatialIndex bboxOf records).2
    geometryCache := cache
    geometryCacheSize := cacheSize }

/-- `rbush.search` with the degenerate query box of a point: every entry whose
bounding box covers the point, in index order. -/
def searchIndex (idx : List IndexedDistrict) (lng lat : ℚ) : List IndexedDistrict :=
  idx.filter (fun d =>
    decide (d.minX ≤ lng) && decide (lng ≤ d.maxX) &&
    decide (d.minY ≤ lat) && decide (lat ≤ d.maxY))

/-- Reading record `recordIndex` from the shapefile and simplifying its
geometry (the body of `loadDistrictGeometry` past the cache check). -/
def decodeRecord {G : Type} (simplifyGeom : G → G) (records : List (ShapeRecord G))
    (recordIndex : Nat) : Option G :=
  match records.get? recordIndex with
  | some rec =>
    match rec.geometry with
    | some g => some (simplifyGeom g.raw)
    | none => none
  | none => none

/-- `districtId && config.cache.geometryCacheSize > 0`. -/
def cacheEnabled {G : Type} (st : ServerState G) (districtId : Option String) : Bool :=
  truthyStr districtId && decide (0 < st.geometryCacheSize)

/-- The file-read path of `loadDistrictGeometry`: decode the record, simplify
it, and store it in the LRU when the cache is enabled for this district id. -/
def loadFresh {G : Type} (simplifyGeom : G → G) (st : ServerState G)
    (recordIndex : Nat) (districtId : Option String) : Option G × ServerState G :=
  match st.shapefileRecords with
  | none => (none, st)
  | some records =>
    match decodeRecord simplifyGeom records recordIndex with
    | some simplified =>
      if cacheEnabled st districtId then
        ( some simplified
        , { st with geometryCache := st.geometryCache.set (districtId.getD "") simplified } )
      else (some simplified, st)
    | none => (none, st)

/-- `loadDistrictGeometry` (src/server.ts lines 356-403): probe the LRU when a
truthy district id is given and the cache is enabled (a hit returns the cached
geometry and refreshes its recency; a miss leaves the cache untouched);
otherwise decode the record from the shapefile via `loadFresh`. -/
def loadDistrictGeometry {G : Type} (simplifyGeom : G → G) (st : ServerState G)
    (recordIndex : Nat) (districtId : Option String) : Option G × ServerState G :=
  if cacheEnabled st districtId then
    match (st.geometryCache.get (districtId.getD "")).1 with
    | some g =>
      (some g, { st with geometryCache := (st.geometryCache.get (districtId.getD "")).2 })
    | none => loadFresh simplifyGeom st recordIndex districtId
  else loadFresh simplifyGeom st recordIndex districtId

/-- `SchoolDistrictLookupResult` (src/types.ts). -/
structure SchoolDistrictLookupResult where
  status : Bool
  districtId : Option String
  districtName : Option String
  gradeRange : Option (String × String)
  area : Option (ℚ × ℚ)
  schoolYear : Option String
  stateCode : Option String
deriving DecidableEq

/-- `{ status: false, districtId: null, districtName: null }`. -/
def notFoundResult : SchoolDistrictLookupResult :=
  { status := false, districtId := none, districtName := none,
    gradeRange := none, area := none, schoolYear := none, stateCode := none }

/-- Square meters per square mile (src/server.ts line 298). -/
def SQMETERS_TO_SQMILES : ℚ := 2589988.11

/-- Keep an optional string only when truthy (an `if (x)` guard). -/
def truthyOpt (s : Option String) : Option String :=
  if truthyStr s then s else none

/-- The `Exact` result assembled on a containment hit (src/server.ts lines
422-457): status true, the candidate's id and name, and — when an attribute
row exists — the formatted grade range, the areas in square miles, and the
truthy school year and state code. -/
def mkHitResult {G : Type} (st : ServerState G) (c : IndexedDistrict) :
    SchoolDistrictLookupResult :=
  let districtId := c.metadata.districtId
  let properties :=
    match districtId with
    | some id => lookupKey st.districtPropertiesMap id
    | none => none
  match properties with
  | none =>
    { status := true, districtId := districtId, districtName := c.metadata.name,
      gradeRange := none, area := none, schoolYear := none, stateCode := none }
  | some p =>
    let lowestGrade := formatGradeLevel p.gradeLowest
    let highestGrade := formatGradeLevel p.gradeHighest
    { status := true
      districtId := districtId
      districtName := c.metadata.name
      gradeRange :=
        if truthyStr lowestGrade && truthyStr highestGrade then
          some (lowestGrade.getD "", highestGrade.getD "")
        else none
      area := some (p.landAreaSqMeters / SQMETERS_TO_SQMILES,
                    p.waterAreaSqMeters / SQMETERS_TO_SQMILES)
      schoolYear := truthyOpt p.schoolYear
      stateCode := truthyOpt p.stateCode }

/-- The candidate loop of `lookupSchoolDistrict`: decode each candidate in
order (via the LRU), return the hit result for the first containment hit,
otherwise fall through to the not-found result. -/
def processCandidates {G : Type} (contains : G → ℚ → ℚ → Bool) (simplifyGeom : G → G)
    (lat lng : ℚ) (st : ServerState G) :
    List IndexedDistrict → SchoolDistrictLookupResult × ServerState G
  | [] => (notFoundResult, st)
  | c :: cs =>
    let r := loadDistrictGeometry simplifyGeom st c.metadata.recordIndex c.metadata.districtId
    match r.1 with
    | some g =>
      if contains g lng lat then (mkHitResult r.2 c, r.2)
      else processCandidates contains simplifyGeom lat lng r.2 cs
    | none => processCandidates contains simplifyGeom lat lng r.2 cs

/-- `lookupSchoolDistrict` (src/server.ts lines 409-461). -/
def lookupSchoolDistrict {G : Type} (contains : G → ℚ → ℚ → Bool) (simplifyGeom : G → G)
    (st : ServerState G) (lat lng : ℚ) :
    SchoolDistrictLookupResult × ServerState G :=
  match st.spatialIndex with
  | none => (notFoundResult, st)
  | some idx => processCandidates contains simplifyGeom lat lng st (searchIndex idx lng lat)

-- ---------------------------------------------------------------------------
-- HTTP routes (src/server.ts, POST /lookup and POST /school-districts/batch)
-- ---------------------------------------------------------------------------

/-- The response of the `/lookup` route after the body has been parsed into a
latitude/longitude pair: a 400 validation error, or the lookup result together
with the echoed coordinates. -/
inductive SingleResponse where
  | invalid (e : CoordError)
  | ok (r : SchoolDistrictLookupResult) (lat lng : ℚ)
deriving DecidableEq

/-- `POST /lookup` (src/server.ts lines 468-530), from the extracted
coordinate pair onward. -/
def postLookup {G : Type} (contains : G → ℚ → ℚ → Bool) (simplifyGeom : G → G)
    (st : ServerState G) (lat lng : JsNum) : SingleResponse × ServerState G :=
  match validateCoordinates lat lng with
  | some e => (.invalid e, st)
  | none =>
    let r := lookupSchoolDistrict contains simplifyGeom st lat.toQ lng.toQ
    (.ok r.1 lat.toQ lng.toQ, r.2)

/-- One entry of the batch response: a per-coordinate validation error with
its index, or the lookup result with its index and the echoed coordinates. -/
inductive BatchEntry where
  | invalid (index : Nat) (e : CoordError)
  | ok (index : Nat) (r : SchoolDistrictLookupResult) (lat lng : ℚ)
deriving DecidableEq

/-- The 400-level rejections of the whole batch request. -/
inductive BatchError where
  /-- "Request body must contain at least one coordinate" -/
  | emptyBody
  /-- "Maximum N coordinates allowed per batch request" -/
  | tooLarge
deriving DecidableEq

/-- One element of the `req.body.map` in the batch route (src/server.ts lines
565-637); the per-coordinate validation ladder is identical to the single
route's. -/
def batchEntry {G : Type} (contains : G → ℚ → ℚ → Bool) (simplifyGeom : G → G)
    (st : ServerState G) (i : Nat) (lat lng : JsNum) : BatchEntry :=
  match validateCoordinates lat lng with
  | some e => .invalid i e
  | none =>
    .ok i (lookupSchoolDistrict contains simplifyGeom st lat.toQ lng.toQ).1 lat.toQ lng.toQ

/-- `POST /school-districts/batch` (src/server.ts lines 533-644), from the
parsed coordinate list onward: reject an empty body, reject a body above
`config.api.maxBatchSize`, otherwise process every coordinate independently
(each against the store; the geometry cache is a pure accelerator). -/
def postBatch {G : Type} (contains : G → ℚ → ℚ → Bool) (simplifyGeom : G → G)
    (maxBatchSize : Nat) (st : ServerState G) (coords : List (JsNum × JsNum)) :
    Except BatchError (List BatchEntry) :=
  if coords.length = 0 then .error .emptyBody
  else if maxBatchSize < coords.length then .error .tooLarge
  else .ok ((coords.enum).map (fun p => batchEntry contains simplifyGeom st p.1 p.2.1 p.2.2))

/-- Drop the batch-entry index, yielding the shape of the single route's
response. -/
def BatchEntry.toSingle : BatchEntry → SingleResponse
  | .invalid _ e => .invalid e
  | .ok _ r lat lng => .ok r lat lng

-- ---------------------------------------------------------------------------
-- The all-in-memory design (src/lib/school-district-cache.ts and
-- src/functions/lookupSchoolDistrict.ts)
-- ---------------------------------------------------------------------------

/-- `SchoolDistrict` (src/types.ts): the in-memory cache record. -/
structure SchoolDistrict (G : Type) where
  districtId : String
  name : String
  geometry : Option (ShapeGeometry G)
deriving DecidableEq

/-- `transformDistrict` (src/lib/school-district-cache.ts): null when the
properties, the GEOID or the NAME are missing (or empty, by truthiness). -/
def transformDistrict {G : Type} (rec : ShapeRecord G) : Option (SchoolDistrict G) :=
  match rec.props with
  | none => none
  | some p =>
    if truthyStr p.GEOID && truthyStr p.NAME then
      some { districtId := p.GEOID.getD "", name := p.NAME.getD "",
             geometry := rec.geometry }
    else none

/-- The read loop of `loadDistrictsIntoCache`: keep the transformed record of
every polygonal feature. -/
def loadDistrictsList {G : Type} (records : List (ShapeRecord G)) : List (SchoolDistrict G) :=
  records.filterMap (fun rec => if isPolygonal rec then transformDistrict rec else none)

/-- `lookupSchoolDistrict` (src/functions/lookupSchoolDistrict.ts): not-found
when the district cache is null, otherwise the first district whose geometry
contains the point. -/
def lookupSchoolDistrictMem {G : Type} (contains : G → ℚ → ℚ → Bool)
    (cache : Option (List (SchoolDistrict G))) (lat lng : ℚ) : SchoolDistrictLookupResult :=
  match cache with
  | none => notFoundResult
  | some districts =>
    match districts.find? (fun d =>
        match d.geometry with
        | some g => contains g.raw lng lat
        | none => false) with
    | some d =>
      { notFoundResult with status := true, districtId := some d.districtId,
                            districtName := some d.name }
    | none => notFoundResult

-- ---------------------------------------------------------------------------
-- Specification predicates used by the theorems
-- ---------------------------------------------------------------------------

/-- The keys of the cache's backing list are pairwise distinct (true of every
state a JavaScript `Map` can reach). -/
def KeysNodup {α : Type} (c : LRUCache α) : Prop := (c.cache.map Prod.fst).Nodup

/-- No two distinct records of the store carry the same GEOID (spec invariant:
`district_id` is unique). -/
def UniqueIds {G : Type} (records : List (ShapeRecord G)) : Prop :=
  ∀ i, i < records.length → ∀ j, j < records.length →
    (records.get? i).bind recGEOID ≠ none →
    (records.get? i).bind recGEOID = (records.get? j).bind recGEOID → i = j

/-- Every cached geometry agrees with a fresh decode of any record carrying
its key as GEOID; this holds for every cache state the server can reach over
a store with unique GEOIDs. -/
def CacheConsistent {G : Type} (simplifyGeom : G → G) (records : List (ShapeRecord G))
    (cache : LRUCache G) : Prop :=
  ∀ p ∈ cache.cache, ∀ i, i < records.length →
    (records.get? i).bind recGEOID = some p.1 →
    decodeRecord simplifyGeom records i = some p.2

/-- Some record of the store decodes to a geometry containing the query point. -/
def anyStoredHit {G : Type} (contains : G → ℚ → ℚ → Bool) (simplifyGeom : G → G)
    (records : List (ShapeRecord G)) (lng lat : ℚ) : Bool :=
  records.any (fun rec =>
    match rec.geometry with
    | some g => contains (simplifyGeom g.raw) lng lat
    | none => false)

/-- Some cached geometry contains the query point. -/
def anyCachedHit {G : Type} (contains : G → ℚ → ℚ → Bool) (cache : LRUCache G)
    (lng lat : ℚ) : Bool :=
  cache.cache.any (fun p => contains p.2 lng lat)

-- ---------------------------------------------------------------------------
-- Concrete instances used by the witnesses
-- ---------------------------------------------------------------------------

/-- A concrete bounding-box function for the geometry universe `G := Nat`. -/
def wBbox : Nat → ℚ × ℚ × ℚ × ℚ := fun _ => (-101, 39, -99, 41)

/-- A concrete containment test: only geometry `1` contains anything. -/
def wContains : Nat → ℚ → ℚ → Bool := fun g _ _ => g == 1

/-- A containment test that never hits. -/
def wContainsNone : Nat → ℚ → ℚ → Bool := fun _ _ _ => false

/-- A concrete simplification pass (the identity). -/
def wSimplify : Nat → Nat := fun g => g

/-- A concrete attribute row. -/
def wProps : FeatureProps :=
  { GEOID := some "X", NAME := some "Dist", LOGRADE := some "PK",
    HIGRADE := some "12", ALAND := some 1, AWATER := some 0,
    SCHOOLYEAR := some "2023-2024", STATEFP := some "25" }

/-- A concrete polygonal record. -/
def wRecord : ShapeRecord Nat :=
  { geometry := some { typ := GeoType.polygon, raw := 1 }, props := some wProps }

/-- A one-record store. -/
def wRecords : List (ShapeRecord Nat) := [wRecord]

/-- The server state after building the index over `wRecords`, empty cache. -/
def wStateEmpty : ServerState Nat :=
  mkServerState wBbox 10 wRecords (LRUCache.empty Nat 10)

/-- `wStateEmpty` after the geometry of record 0 has been decoded and cached. -/
def wStateCached : ServerState Nat :=
  { wStateEmpty with geometryCache := { maxSize := 10, cache := [("X", 1)] } }

/-- A server state whose spatial index was never built. -/
def wStateNoIndex : ServerState Nat :=
  { spatialIndex := none, shapefileRecords := none, districtPropertiesMap := [],
    geometryCache := LRUCache.empty Nat 10, geometryCacheSize := 10 }

/-- The R-tree entry that `buildSpatialIndex` produces for `wRecord`. -/
def wCand : IndexedDistrict :=
  { minX := -101, minY := 39, maxX := -99, maxY := 41,
    metadata := { districtId := some "X", name := some "Dist", recordIndex := 0 } }

/-- An attribute row with a missing GEOID. -/
def c8Props : FeatureProps :=
  { GEOID := none, NAME := some "Nameless", LOGRADE := none, HIGRADE := none,
    ALAND := none, AWATER := none, SCHOOLYEAR := none, STATEFP := none }

/-- A polygonal record whose GEOID is absent. -/
def c8Record : ShapeRecord Nat :=
  { geometry := some { typ := GeoType.polygon, raw := 7 }, props := some c8Props }


-- ---------------------------------------------------------------------------
-- Association-list lemmas
-- ---------------------------------------------------------------------------

theorem lookupKey_nil {α : Type} (k : String) : lookupKey ([] : List (String × α)) k = none :=
  rfl

theorem lookupKey_cons_self {α : Type} (k : String) (v : α) (rest : List (String × α)) :
    lookupKey ((k, v) :: rest) k = some v := by
  simp [lookupKey]

theorem lookupKey_cons_ne {α : Type} {k' k : String} (v : α) (rest : List (String × α))
    (h : ¬ k' = k) : lookupKey ((k', v) :: rest) k = lookupKey rest k := by
  simp [lookupKey, h]

theorem eraseKey_cons_self {α : Type} {k' k : String} (v : α) (rest : List (String × α))
    (h : k' = k) : eraseKey ((k', v) :: rest) k = eraseKey rest k := by
  simp [eraseKey, h]

theorem eraseKey_cons_ne {α : Type} {k' k : String} (v : α) (rest : List (String × α))
    (h : ¬ k' = k) : eraseKey ((k', v) :: rest) k = (k', v) :: eraseKey rest k := by
  simp [eraseKey, h]

theorem lookupKey_eq_none_iff {α : Type} (l : List (String × α)) (k : String) :
    lookupKey l k = none ↔ k ∉ l.map Prod.fst := by
  induction l with
  | nil => simp [lookupKey]
  | cons p rest ih =>
    obtain ⟨k', v⟩ := p
    by_cases h : k' = k
    · subst h; simp [lookupKey_cons_self]
    · rw [lookupKey_cons_ne _ _ h]
      simp only [List.map_cons, List.mem_cons, ih]
      constructor
      · rintro hk (h1 | h2)
        · exact h h1.symm
        · exact hk h2
      · intro hk
        exact fun h2 => hk (Or.inr h2)

theorem mem_of_lookupKey {α : Type} {l : List (String × α)} {k : String} {v : α}
    (h : lookupKey l k = some v) : (k, v) ∈ l := by
  induction l with
  | nil => simp [lookupKey] at h
  | cons p rest ih =>
    obtain ⟨k', v'⟩ := p
    by_cases hk : k' = k
    · subst hk
      rw [lookupKey_cons_self] at h
      obtain rfl := Option.some.inj h
      exact List.mem_cons_self _ _
    · rw [lookupKey_cons_ne _ _ hk] at h
      exact List.mem_cons_of_mem _ (ih h)

theorem mem_keys_of_lookupKey {α : Type} {l : List (String × α)} {k : String} {v : α}
    (h : lookupKey l k = some v) : k ∈ l.map Prod.fst :=
  List.mem_map.2 ⟨(k, v), mem_of_lookupKey h, rfl⟩

theorem lookupKey_append_left {α : Type} {l₁ : List (String × α)} {k : String} {v : α}
    (l₂ : List (String × α)) (h : lookupKey l₁ k = some v) :
    lookupKey (l₁ ++ l₂) k = some v := by
  induction l₁ with
  | nil => simp [lookupKey] at h
  | cons p rest ih =>
    obtain ⟨k', v'⟩ := p
    by_cases hk : k' = k
    · subst hk
      rw [lookupKey_cons_self] at h
      obtain rfl := Option.some.inj h
      rw [List.cons_append, lookupKey_cons_self]
    · rw [lookupKey_cons_ne _ _ hk] at h
      rw [List.cons_append, lookupKey_cons_ne _ _ hk]
      exact ih h

theorem lookupKey_append_right {α : Type} {l₁ : List (String × α)} {k : String}
    (l₂ : List (String × α)) (h : lookupKey l₁ k = none) :
    lookupKey (l₁ ++ l₂) k = lookupKey l₂ k := by
  induction l₁ with
  | nil => simp
  | cons p rest ih =>
    obtain ⟨k', v'⟩ := p
    by_cases hk : k' = k
    · subst hk
      rw [lookupKey_cons_self] at h
      exact absurd h (by simp)
    · rw [lookupKey_cons_ne _ _ hk] at h
      rw [List.cons_append, lookupKey_cons_ne _ _ hk]
      exact ih h

theorem eraseKey_subset {α : Type} {l : List (String × α)} {k : String} :
    ∀ p ∈ eraseKey l k, p ∈ l := by
  induction l with
  | nil => simp [eraseKey]
  | cons q rest ih =>
    obtain ⟨k', v'⟩ := q
    by_cases hk : k' = k
    · rw [eraseKey_cons_self _ _ hk]
      exact fun p hp => List.mem_cons_of_mem _ (ih p hp)
    · rw [eraseKey_cons_ne _ _ hk]
      intro p hp
      rcases List.mem_cons.1 hp with h | h
      · exact h ▸ List.mem_cons_self _ _
      · exact List.mem_cons_of_mem _ (ih p h)

theorem lookupKey_eraseKey_self {α : Type} (l : List (String × α)) (k : String) :
    lookupKey (eraseKey l k) k = none := by
  induction l with
  | nil => simp [eraseKey, lookupKey]
  | cons q rest ih =>
    obtain ⟨k', v'⟩ := q
    by_cases hk : k' = k
    · rw [eraseKey_cons_self _ _ hk]; exact ih
    · rw [eraseKey_cons_ne _ _ hk, lookupKey_cons_ne _ _ hk]; exact ih

theorem not_mem_keys_eraseKey {α : Type} (l : List (String × α)) (k : String) :
    k ∉ (eraseKey l k).map Prod.fst :=
  (lookupKey_eq_none_iff _ _).1 (lookupKey_eraseKey_self l k)

theorem mem_keys_eraseKey {α : Type} {l : List (String × α)} {k a : String}
    (h : a ∈ (eraseKey l k).map Prod.fst) : a ∈ l.map Prod.fst := by
  obtain ⟨p, hp, rfl⟩ := List.mem_map.1 h
  exact List.mem_map.2 ⟨p, eraseKey_subset p hp, rfl⟩

theorem nodup_keys_eraseKey {α : Type} {l : List (String × α)} (k : String)
    (h : (l.map Prod.fst).Nodup) : ((eraseKey l k).map Prod.fst).Nodup := by
  induction l with
  | nil => simp [eraseKey]
  | cons q rest ih =>
    obtain ⟨k', v'⟩ := q
    simp only [List.map_cons, List.nodup_cons] at h
    by_cases hk : k' = k
    · rw [eraseKey_cons_self _ _ hk]
      exact ih h.2
    · rw [eraseKey_cons_ne _ _ hk]
      simp only [List.map_cons, List.nodup_cons]
      exact ⟨fun hm => h.1 (mem_keys_eraseKey hm), ih h.2⟩

theorem eraseKey_of_not_mem {α : Type} {l : List (String × α)} {k : String}
    (h : k ∉ l.map Prod.fst) : eraseKey l k = l := by
  induction l with
  | nil => simp [eraseKey]
  | cons q rest ih =>
    obtain ⟨k', v'⟩ := q
    simp only [List.map_cons, List.mem_cons] at h
    push_neg at h
    have hne : ¬ k' = k := fun hk => h.1 (Eq.symm hk)
    rw [eraseKey_cons_ne _ _ hne, ih h.2]

theorem length_eraseKey_nodup {α : Type} {l : List (String × α)} {k : String}
    (h : (l.map Prod.fst).Nodup) (hm : k ∈ l.map Prod.fst) :
    (eraseKey l k).length + 1 = l.length := by
  induction l with
  | nil => simp at hm
  | cons q rest ih =>
    obtain ⟨k', v'⟩ := q
    simp only [List.map_cons, List.nodup_cons] at h
    simp only [List.map_cons, List.mem_cons] at hm
    by_cases hk : k' = k
    · subst hk
      rw [eraseKey_cons_self _ _ rfl, eraseKey_of_not_mem h.1]
      simp
    · rcases hm with hm | hm
      · exact absurd hm.symm hk
      · rw [eraseKey_cons_ne _ _ hk]
        simp only [List.length_cons]
        rw [← ih h.2 hm]

theorem lookupKey_fresh_append {α : Type} {pre : List (String × α)} {k : String}
    (v : α) (h : k ∉ pre.map Prod.fst) : lookupKey (pre ++ [(k, v)]) k = some v := by
  rw [lookupKey_append_right _ ((lookupKey_eq_none_iff _ _).2 h), lookupKey_cons_self]

-- ---------------------------------------------------------------------------
-- LRU cache lemmas
-- ---------------------------------------------------------------------------

theorem LRUCache.set_cache {α : Type} (c : LRUCache α) (k : String) (v : α) :
    (c.set k v).cache =
      (if (lookupKey c.cache k).isSome then eraseKey c.cache k
       else if c.maxSize ≤ c.cache.length then c.cache.tail
       else c.cache) ++ [(k, v)] := by
  unfold LRUCache.set
  by_cases h1 : (lookupKey c.cache k).isSome
  · rw [if_pos h1, if_pos h1]
  · rw [if_neg h1, if_neg h1]
    by_cases h2 : c.maxSize ≤ c.cache.length
    · rw [if_pos h2, if_pos h2]
      cases hc : c.cache with
      | nil => simp
      | cons p rest => simp
    · rw [if_neg h2, if_neg h2]

theorem LRUCache.set_maxSize {α : Type} (c : LRUCache α) (k : String) (v : α) :
    (c.set k v).maxSize = c.maxSize := by
  unfold LRUCache.set
  by_cases h1 : (lookupKey c.cache k).isSome
  · rw [if_pos h1]
  · rw [if_neg h1]
    by_cases h2 : c.maxSize ≤ c.cache.length
    · rw [if_pos h2]
      cases c.cache with
      | nil => rfl
      | cons p rest => rfl
    · rw [if_neg h2]

theorem LRUCache.get_miss {α : Type} (c : LRUCache α) (k : String)
    (h : lookupKey c.cache k = none) : c.get k = (none, c) := by
  unfold LRUCache.get
  rw [h]

theorem LRUCache.get_hit {α : Type} (c : LRUCache α) (k : String) (v : α)
    (h : lookupKey c.cache k = some v) :
    c.get k = (some v, { c with cache := eraseKey c.cache k ++ [(k, v)] }) := by
  unfold LRUCache.get
  rw [h]

theorem LRUCache.get_snd_maxSize {α : Type} (c : LRUCache α) (k : String) :
    ((c.get k).2).maxSize = c.maxSize := by
  unfold LRUCache.get
  cases h : lookupKey c.cache k with
  | none => rfl
  | some v => rfl

/-- The portion of the backing list that survives in front of the new entry
after a `set` never contains the inserted key. -/
theorem not_mem_set_front {α : Type} (c : LRUCache α) (k : String) :
    k ∉ ((if (lookupKey c.cache k).isSome then eraseKey c.cache k
          else if c.maxSize ≤ c.cache.length then c.cache.tail
          else c.cache).map Prod.fst) := by
  by_cases h : (lookupKey c.cache k).isSome
  · rw [if_pos h]
    exact not_mem_keys_eraseKey _ _
  · have hn : lookupKey c.cache k = none := Option.not_isSome_iff_eq_none.1 h
    have hk : k ∉ c.cache.map Prod.fst := (lookupKey_eq_none_iff _ _).1 hn
    rw [if_neg h]
    by_cases h2 : c.maxSize ≤ c.cache.length
    · rw [if_pos h2]
      intro hm
      apply hk
      obtain ⟨p, hp, rfl⟩ := List.mem_map.1 hm
      exact List.mem_map.2 ⟨p, List.mem_of_mem_tail hp, rfl⟩
    · rw [if_neg h2]
      exact hk

/-- A `set` immediately followed by a `get` of the same key returns the value. -/
theorem lru_set_then_get {α : Type} (c : LRUCache α) (k : String) (v : α) :
    ((c.set k v).get k).1 = some v := by
  have hl : lookupKey (c.set k v).cache k = some v := by
    rw [LRUCache.set_cache]
    exact lookupKey_fresh_append v (not_mem_set_front c k)
  rw [LRUCache.get_hit _ _ _ hl]

theorem nodup_tail_keys {α : Type} (l : List (String × α))
    (h : (l.map Prod.fst).Nodup) : (l.tail.map Prod.fst).Nodup := by
  cases l with
  | nil => simp
  | cons p rest =>
    simp only [List.map_cons, List.nodup_cons] at h
    exact h.2

theorem lru_set_wf {α : Type} (c : LRUCache α) (k : String) (v : α)
    (h1 : KeysNodup c) (h2 : c.size ≤ max c.maxSize 1) :
    KeysNodup (c.set k v) ∧ (c.set k v).size ≤ max c.maxSize 1 := by
  unfold KeysNodup LRUCache.size at *
  rw [LRUCache.set_cache]
  have hfresh := not_mem_set_front c k
  constructor
  · rw [List.map_append]
    refine List.Nodup.append ?_ (by simp) ?_
    · by_cases hs : (lookupKey c.cache k).isSome
      · rw [if_pos hs] at *
        exact nodup_keys_eraseKey _ h1
      · rw [if_neg hs] at *
        by_cases h2' : c.maxSize ≤ c.cache.length
        · rw [if_pos h2'] at *
          exact nodup_tail_keys _ h1
        · rw [if_neg h2'] at *
          exact h1
    · intro a ha hb
      simp only [List.map_cons, List.map_nil, List.mem_singleton] at hb
      subst hb
      exact hfresh ha
  · rw [List.length_append]
    simp only [List.length_singleton]
    by_cases hs : (lookupKey c.cache k).isSome
    · rw [if_pos hs]
      obtain ⟨w, hw⟩ := Option.isSome_iff_exists.1 hs
      have := length_eraseKey_nodup h1 (mem_keys_of_lookupKey hw)
      omega
    · rw [if_neg hs]
      by_cases h2' : c.maxSize ≤ c.cache.length
      · rw [if_pos h2']
        cases hc : c.cache with
        | nil => simp
        | cons p rest =>
          rw [hc] at h2
          simp only [List.tail_cons]
          simp only [List.length_cons] at h2
          omega
      · rw [if_neg h2']
        push_neg at h2'
        omega

theorem lru_get_wf {α : Type} (c : LRUCache α) (k : String)
    (h1 : KeysNodup c) :
    KeysNodup ((c.get k).2) ∧ ((c.get k).2).size = c.size := by
  unfold KeysNodup LRUCache.size at *
  cases hl : lookupKey c.cache k with
  | none =>
    rw [LRUCache.get_miss _ _ hl]
    exact ⟨h1, rfl⟩
  | some v =>
    rw [LRUCache.get_hit _ _ _ hl]
    dsimp only
    constructor
    · rw [List.map_append]
      refine List.Nodup.append (nodup_keys_eraseKey _ h1) (by simp) ?_
      intro a ha hb
      simp only [List.map_cons, List.map_nil, List.mem_singleton] at hb
      subst hb
      exact not_mem_keys_eraseKey _ _ ha
    · rw [List.length_append]
      simp only [List.length_singleton]
      have := length_eraseKey_nodup h1 (mem_keys_of_lookupKey hl)
      omega

theorem lru_run_wf {α : Type} :
    ∀ (ops : List (LRUOp α)) (c : LRUCache α), KeysNodup c → c.size ≤ max c.maxSize 1 →
      KeysNodup (c.run ops) ∧ (c.run ops).size ≤ max c.maxSize 1 ∧
        (c.run ops).maxSize = c.maxSize := by
  intro ops
  induction ops with
  | nil => exact fun c h1 h2 => ⟨h1, h2, rfl⟩
  | cons op rest ih =>
    intro c h1 h2
    cases op with
    | get k =>
      have hw := lru_get_wf c k h1
      have hm := LRUCache.get_snd_maxSize c k
      have := ih ((c.get k).2) hw.1 (by rw [hm]; omega)
      rw [hm] at this
      exact this
    | set k v =>
      have hw := lru_set_wf c k v h1 h2
      have hm := LRUCache.set_maxSize c k v
      have := ih (c.set k v) hw.1 (by rw [hm]; exact hw.2)
      rw [hm] at this
      exact this

theorem fillAll_fresh {α : Type} :
    ∀ (ps : List (String × α)) (c : LRUCache α),
      (c.cache.map Prod.fst ++ ps.map Prod.fst).Nodup →
      c.cache.length + ps.length ≤ c.maxSize →
      (c.fillAll ps).cache = c.cache ++ ps ∧ (c.fillAll ps).maxSize = c.maxSize := by
  intro ps
  induction ps with
  | nil =>
    intro c h1 h2
    simp [LRUCache.fillAll]
  | cons p rest ih =>
    intro c h1 h2
    have hfresh : p.1 ∉ c.cache.map Prod.fst := by
      rw [List.nodup_append] at h1
      intro hm
      exact h1.2.2 hm (by simp)
    have hnone : lookupKey c.cache p.1 = none := (lookupKey_eq_none_iff _ _).2 hfresh
    have hspace : ¬ c.maxSize ≤ c.cache.length := by
      simp only [List.length_cons] at h2
      omega
    have hset_cache : (c.set p.1 p.2).cache = c.cache ++ [p] := by
      rw [LRUCache.set_cache, if_neg (by rw [hnone]; simp), if_neg hspace]
    have hset_max := LRUCache.set_maxSize c p.1 p.2
    have hA : ((c.set p.1 p.2).cache.map Prod.fst ++ rest.map Prod.fst).Nodup := by
      rw [hset_cache, List.map_append]
      simpa [List.append_assoc] using h1
    have hB : (c.set p.1 p.2).cache.length + rest.length ≤ (c.set p.1 p.2).maxSize := by
      rw [hset_cache, hset_max]
      simp only [List.length_append, List.length_singleton]
      simp only [List.length_cons] at h2
      omega
    have h3 := ih (c.set p.1 p.2) hA hB
    unfold LRUCache.fillAll at h3 ⊢
    simp only [List.foldl_cons]
    constructor
    · rw [h3.1, hset_cache]
      simp [List.append_assoc]
    · rw [h3.2, hset_max]

/-- C4 — corrected.  The claim fails for capacity 0: a single `set` against a
capacity-0 cache leaves one entry, because the eviction branch finds no first
key to delete and the insertion still happens.  Here a concrete operation
sequence on a capacity-0 cache yields size 1 > 0. -/
theorem C4_counterexample :
    ((LRUCache.empty Nat 0).run [LRUOp.set "a" 1]).size = 1 := by decide

/-- C4 (amended).  For every capacity C ≥ 1 and every operation sequence from
the empty cache the size never exceeds C; a capacity-0 cache can hold one
entry but never more; setting an existing key (in a duplicate-free state)
does not change the size; and inserting a new key when the cache is full
evicts the least-recently-used (first) key without changing the size. -/
theorem C4_amended_size_bound :
    (∀ C : Nat, 1 ≤ C → ∀ ops : List (LRUOp Nat),
        ((LRUCache.empty Nat C).run ops).size ≤ C)
    ∧ (∀ ops : List (LRUOp Nat), ((LRUCache.empty Nat 0).run ops).size ≤ 1)
    ∧ (∀ (c : LRUCache Nat) (k : String) (v : Nat), KeysNodup c →
        c.hasKey k = true → (c.set k v).size = c.size)
    ∧ (∀ (c : LRUCache Nat) (k0 : String) (v0 : Nat) (rest : List (String × Nat))
        (k : String) (v : Nat), KeysNodup c → c.cache = (k0, v0) :: rest →
        c.hasKey k = false → c.maxSize ≤ c.size →
        (c.set k v).hasKey k0 = false ∧ (c.set k v).size = c.size) := by
  have hrun : ∀ (C : Nat) (ops : List (LRUOp Nat)),
      ((LRUCache.empty Nat C).run ops).size ≤ max C 1 := by
    intro C ops
    have := lru_run_wf ops (LRUCache.empty Nat C) (by simp [KeysNodup, LRUCache.empty])
      (by simp [LRUCache.size, LRUCache.empty])
    simpa [LRUCache.empty] using this.2.1
  refine ⟨?_, ?_, ?_, ?_⟩
  · intro C hC ops
    have := hrun C ops
    omega
  · intro ops
    have := hrun 0 ops
    omega
  · intro c k v h1 hk
    unfold LRUCache.hasKey at hk
    unfold LRUCache.size
    rw [LRUCache.set_cache, if_pos hk]
    obtain ⟨w, hw⟩ := Option.isSome_iff_exists.1 hk
    have := length_eraseKey_nodup h1 (mem_keys_of_lookupKey hw)
    simp only [List.length_append, List.length_singleton]
    omega
  · intro c k0 v0 rest k v h1 hc hk hfull
    unfold LRUCache.hasKey at hk ⊢
    unfold LRUCache.size at hfull ⊢
    have hnone : lookupKey c.cache k = none := by
      rcases h : lookupKey c.cache k with _ | w
      · rfl
      · rw [h] at hk; simp at hk
    have hknot : k ∉ c.cache.map Prod.fst := (lookupKey_eq_none_iff _ _).1 hnone
    have hcache : (c.set k v).cache = rest ++ [(k, v)] := by
      rw [LRUCache.set_cache, if_neg (by rw [hnone]; simp), if_pos hfull, hc]
      rfl
    have hk0rest : k0 ∉ rest.map Prod.fst := by
      have := h1
      unfold KeysNodup at this
      rw [hc] at this
      simp only [List.map_cons, List.nodup_cons] at this
      exact this.1
    have hkne : ¬ k = k0 := by
      intro h
      subst h
      apply hknot
      rw [hc]
      simp
    constructor
    · rw [hcache,
        lookupKey_append_right _ ((lookupKey_eq_none_iff _ _).2 hk0rest),
        lookupKey_cons_ne _ _ hkne]
      rfl
    · rw [hcache, hc]
      simp

/-- C4 witness: a concrete run against a capacity-1 cache stays within the
bound. -/
theorem C4_amended_size_bound_witness :
    ((LRUCache.empty Nat 1).run [LRUOp.set "a" 0, LRUOp.set "b" 1]).size ≤ 1 :=
  C4_amended_size_bound.1 1 (by decide) [LRUOp.set "a" 0, LRUOp.set "b" 1]

/-- C5 — corrected.  With capacity 1, a `get` does move the key to
most-recently-used, yet the key is still the next one evicted (it is the only
entry, hence also the least-recently-used): after `set a; get a; set b` the
key `a` is gone. -/
theorem C5_counterexample :
    ((((LRUCache.empty Nat 1).set "a" 0).get "a").2.set "b" 1).hasKey "a" = false := by
  decide

/-- C5 (amended).  A `set` immediately followed by a `get` of the same key
returns the value; after filling an empty capacity-C cache with C distinct
keys, inserting one more new key evicts the earliest-inserted key; and a
`get` moves its key to most-recently-used, so the key survives the next
eviction provided the cache holds at least two entries (with a single entry
the got key is necessarily the one evicted). -/
theorem C5_amended_lru_behavior :
    (∀ (c : LRUCache Nat) (k : String) (v : Nat), ((c.set k v).get k).1 = some v)
    ∧ (∀ (C : Nat) (ps : List (String × Nat)) (k0 : String) (v0 : Nat)
        (rest : List (String × Nat)) (k : String) (v : Nat),
        1 ≤ C → ps.length = C → (ps.map Prod.fst).Nodup → k ∉ ps.map Prod.fst →
        ps = (k0, v0) :: rest →
        (((LRUCache.empty Nat C).fillAll ps).set k v).hasKey k0 = false)
    ∧ (∀ (c : LRUCache Nat) (k k2 : String) (v2 : Nat), KeysNodup c →
        2 ≤ c.size → c.maxSize ≤ c.size → c.hasKey k = true → c.hasKey k2 = false →
        (((c.get k).2).set k2 v2).hasKey k = true) := by
  refine ⟨?_, ?_, ?_⟩
  · intro c k v
    exact lru_set_then_get c k v
  · intro C ps k0 v0 rest k v hC hlen hnodup hkfresh hps
    have hfill := fillAll_fresh ps (LRUCache.empty Nat C)
      (by simpa [LRUCache.empty] using hnodup)
      (by simp [LRUCache.empty, hlen])
    set f := (LRUCache.empty Nat C).fillAll ps with hf
    have hfc : f.cache = ps := by
      rw [hfill.1]
      simp [LRUCache.empty]
    have hfm : f.maxSize = C := by
      rw [hfill.2]
      rfl
    have hknone : lookupKey f.cache k = none := by
      rw [hfc]
      exact (lookupKey_eq_none_iff _ _).2 hkfresh
    have hfullf : f.maxSize ≤ f.cache.length := by
      rw [hfc, hfm, hlen]
    have hcache : (f.set k v).cache = rest ++ [(k, v)] := by
      rw [LRUCache.set_cache, if_neg (by rw [hknone]; simp), if_pos hfullf, hfc, hps]
      rfl
    have hk0rest : k0 ∉ rest.map Prod.fst := by
      rw [hps] at hnodup
      simp only [List.map_cons, List.nodup_cons] at hnodup
      exact hnodup.1
    have hkne : ¬ k = k0 := by
      intro h
      subst h
      apply hkfresh
      rw [hps]
      simp
    unfold LRUCache.hasKey
    rw [hcache,
      lookupKey_append_right _ ((lookupKey_eq_none_iff _ _).2 hk0rest),
      lookupKey_cons_ne _ _ hkne]
    rfl
  · intro c k k2 v2 h1 hsize hfull hk hk2
    unfold LRUCache.hasKey at hk hk2 ⊢
    unfold LRUCache.size at hsize hfull
    obtain ⟨v, hv⟩ := Option.isSome_iff_exists.1 hk
    have hget := LRUCache.get_hit c k v hv
    set E := eraseKey c.cache k with hE
    have hlenE : E.length + 1 = c.cache.length :=
      length_eraseKey_nodup h1 (mem_keys_of_lookupKey hv)
    have hc1cache : ((c.get k).2).cache = E ++ [(k, v)] := by rw [hget]
    have hc1max : ((c.get k).2).maxSize = c.maxSize := LRUCache.get_snd_maxSize c k
    have hk2c : k2 ∉ c.cache.map Prod.fst := by
      apply (lookupKey_eq_none_iff _ _).1
      rcases h : lookupKey c.cache k2 with _ | w
      · rfl
      · rw [h] at hk2; simp at hk2
    have hk2ne : ¬ k2 = k := by
      intro h
      subst h
      exact hk2c (mem_keys_of_lookupKey hv)
    have hk2fresh : k2 ∉ (E ++ [(k, v)]).map Prod.fst := by
      rw [List.map_append]
      intro hm
      rcases List.mem_append.1 hm with hm | hm
      · exact hk2c (mem_keys_eraseKey hm)
      · simp only [List.map_cons, List.map_nil, List.mem_singleton] at hm
        exact hk2ne hm
    have hk2none : lookupKey ((c.get k).2).cache k2 = none := by
      rw [hc1cache]
      exact (lookupKey_eq_none_iff _ _).2 hk2fresh
    have hfull1 : ((c.get k).2).maxSize ≤ ((c.get k).2).cache.length := by
      rw [hc1max, hc1cache]
      simp only [List.length_append, List.length_singleton]
      omega
    cases hEc : E with
    | nil =>
      exfalso
      rw [hEc] at hlenE
      simp at hlenE
      omega
    | cons e es =>
      have hcache2 : (((c.get k).2).set k2 v2).cache = (es ++ [(k, v)]) ++ [(k2, v2)] := by
        rw [LRUCache.set_cache, if_neg (by rw [hk2none]; simp), if_pos hfull1, hc1cache, hEc]
        rfl
      have hkes : k ∉ es.map Prod.fst := by
        intro hm
        apply not_mem_keys_eraseKey c.cache k
        rw [← hE, hEc]
        simp only [List.map_cons, List.mem_cons]
        exact Or.inr hm
      have hlk : lookupKey (es ++ [(k, v)]) k = some v :=
        lookupKey_fresh_append v hkes
      rw [hcache2, lookupKey_append_left _ hlk]
      rfl

/-- C5 witness: with capacity 2, after inserting `a` and `b` and inserting the
fresh key `c`, the earliest key `a` is evicted. -/
theorem C5_amended_lru_behavior_witness :
    (((LRUCache.empty Nat 2).fillAll [("a", 1), ("b", 2)]).set "c" 3).hasKey "a" = false :=
  C5_amended_lru_behavior.2.1 2 [("a", 1), ("b", 2)] "a" 1 [("b", 2)] "c" 3
    (by decide) (by decide) (by decide) (by decide) (by decide)

-- ---------------------------------------------------------------------------
-- Decimal-digit lemmas for grade formatting
-- ---------------------------------------------------------------------------

theorem natDigitsAux_fuel : ∀ (f1 : Nat), ∀ (f2 n : Nat), n < f1 → n < f2 →
    natDigitsAux f1 n = natDigitsAux f2 n := by
  intro f1
  induction f1 with
  | zero => intro f2 n h1 h2; omega
  | succ f1 ih =>
    intro f2 n h1 h2
    cases f2 with
    | zero => omega
    | succ f2 =>
      by_cases h : n < 10
      · simp [natDigitsAux, h]
      · simp only [natDigitsAux, if_neg h]
        have hd : n / 10 < n := Nat.div_lt_self (by omega) (by omega)
        rw [ih f2 (n / 10) (by omega) (by omega)]

theorem natDigits_small {n : Nat} (h : n < 10) : natDigits n = [Char.ofNat (48 + n)] := by
  simp [natDigits, natDigitsAux, h]

theorem natDigits_large {n : Nat} (h : 10 ≤ n) :
    natDigits n = natDigits (n / 10) ++ [Char.ofNat (48 + n % 10)] := by
  unfold natDigits
  have h1 : natDigitsAux (n + 1) n =
      natDigitsAux n (n / 10) ++ [Char.ofNat (48 + n % 10)] := by
    simp [natDigitsAux, Nat.not_lt.2 h]
  rw [h1]
  have hd : n / 10 < n := Nat.div_lt_self (by omega) (by omega)
  rw [natDigitsAux_fuel n (n / 10 + 1) (n / 10) (by omega) (by omega)]

theorem toNat_of_isDigit {c : Char} (h : c.isDigit = true) :
    48 ≤ c.toNat ∧ c.toNat ≤ 57 := by
  simpa [Char.isDigit] using h

theorem digitVal_lt_10 {c : Char} (h : c.isDigit = true) : digitVal c < 10 := by
  have := toNat_of_isDigit h
  unfold digitVal
  omega

theorem ofNat_digitVal {c : Char} (h : c.isDigit = true) :
    Char.ofNat (48 + digitVal c) = c := by
  have hb := toNat_of_isDigit h
  have he : 48 + digitVal c = c.toNat := by
    unfold digitVal
    omega
  rw [he, Char.ofNat_toNat]

theorem digitVal_pos {c : Char} (h : c.isDigit = true) (h0 : ¬ c = '0') :
    1 ≤ digitVal c := by
  have hb := toNat_of_isDigit h
  have hne : c.toNat ≠ 48 := by
    intro he
    apply h0
    have := Char.ofNat_toNat c
    rw [he] at this
    exact this.symm.trans rfl |>.symm ▸ rfl
  unfold digitVal
  omega

theorem digitsToNat_go (cs : List Char) :
    ∀ a : Nat, cs.foldl (fun x c => 10 * x + digitVal c) a =
      a * 10 ^ cs.length + digitsToNat cs := by
  induction cs with
  | nil => intro a; simp [digitsToNat]
  | cons c cs ih =>
    intro a
    rw [List.foldl_cons, ih (10 * a + digitVal c)]
    have h2 : digitsToNat (c :: cs) = digitVal c * 10 ^ cs.length + digitsToNat cs := by
      show List.foldl _ (10 * 0 + digitVal c) cs = _
      rw [ih (10 * 0 + digitVal c)]
      ring
    rw [h2, List.length_cons]
    ring

theorem digitsToNat_cons (c : Char) (cs : List Char) :
    digitsToNat (c :: cs) = digitVal c * 10 ^ cs.length + digitsToNat cs := by
  show List.foldl _ (10 * 0 + digitVal c) cs = _
  rw [digitsToNat_go cs (10 * 0 + digitVal c)]
  ring

theorem digitsToNat_append_singleton (cs : List Char) (d : Char) :
    digitsToNat (cs ++ [d]) = 10 * digitsToNat cs + digitVal d := by
  unfold digitsToNat
  rw [List.foldl_append]
  simp

theorem natDigits_digitsToNat :
    ∀ cs : List Char, (∀ c ∈ cs, c.isDigit = true) → cs ≠ [] →
      (cs.head? = some '0' → cs = ['0']) → natDigits (digitsToNat cs) = cs := by
  intro cs
  induction cs using List.reverseRecOn with
  | nil => intro _ h _; exact absurd rfl h
  | append_singleton ds d ih =>
    intro hdig hne hcanon
    have hd : d.isDigit = true := hdig d (by simp)
    cases ds with
    | nil =>
      have h1 : digitsToNat [d] = digitVal d := by
        unfold digitsToNat
        simp
      simp only [List.nil_append]
      rw [h1, natDigits_small (digitVal_lt_10 hd), ofNat_digitVal hd]
    | cons e ds' =>
      have he : e.isDigit = true := hdig e (by simp)
      have hene : ¬ e = '0' := by
        intro h
        subst h
        have := hcanon (by simp)
        simp at this
      have hvds : 1 ≤ digitsToNat (e :: ds') := by
        rw [digitsToNat_cons]
        have h1 : 1 ≤ digitVal e := digitVal_pos he hene
        have h2 : 1 ≤ 10 ^ ds'.length := Nat.one_le_pow _ _ (by omega)
        have := Nat.mul_le_mul h1 h2
        omega
      have hv : digitsToNat ((e :: ds') ++ [d]) = 10 * digitsToNat (e :: ds') + digitVal d :=
        digitsToNat_append_singleton _ _
      have hdlt := digitVal_lt_10 hd
      have hge : 10 ≤ digitsToNat ((e :: ds') ++ [d]) := by omega
      rw [natDigits_large hge]
      have hdiv : digitsToNat ((e :: ds') ++ [d]) / 10 = digitsToNat (e :: ds') := by omega
      have hmod : digitsToNat ((e :: ds') ++ [d]) % 10 = digitVal d := by omega
      rw [hdiv, hmod, ofNat_digitVal hd,
        ih (fun c hc => hdig c (List.mem_append_left [d] hc)) (by simp)
          (by intro h; simp at h; exact absurd h hene)]

theorem digitsToNat_dropZeros (cs : List Char) :
    digitsToNat (cs.dropWhile (fun c => c = '0')) = digitsToNat cs := by
  induction cs with
  | nil => rfl
  | cons c cs ih =>
    by_cases h : c = '0'
    · subst h
      rw [List.dropWhile_cons_of_pos (by simp), ih, digitsToNat_cons]
      simp [digitVal]
    · rw [List.dropWhile_cons_of_neg (by simp [h])]

theorem dropWhile_head_false {α : Type} (p : α → Bool) :
    ∀ (l : List α) (c : α) (tl : List α), l.dropWhile p = c :: tl → p c = false := by
  intro l
  induction l with
  | nil => intro c tl h; simp [List.dropWhile] at h
  | cons a l' ih =>
    intro c tl h
    by_cases hp : p a = true
    · rw [List.dropWhile_cons_of_pos hp] at h
      exact ih c tl h
    · rw [List.dropWhile_cons_of_neg (by simpa using hp)] at h
      obtain ⟨rfl, _⟩ := List.cons.inj h
      simpa using hp

theorem mem_of_mem_dropWhile {α : Type} {p : α → Bool} {l : List α} {a : α}
    (h : a ∈ l.dropWhile p) : a ∈ l :=
  (List.dropWhile_sublist p (l := l)).subset h

theorem digit_not_special {c : Char} (h : c.isDigit = true) :
    isJsSpace c = false ∧ ¬ c = '-' ∧ ¬ c = '+' := by
  have hb := toNat_of_isDigit h
  have h1 : ¬ c = ' ' := by rintro rfl; exact absurd hb.1 (by decide)
  have h2 : ¬ c = '\t' := by rintro rfl; exact absurd hb.1 (by decide)
  have h3 : ¬ c = '\n' := by rintro rfl; exact absurd hb.1 (by decide)
  have h4 : ¬ c = '\r' := by rintro rfl; exact absurd hb.1 (by decide)
  have h5 : ¬ c = '-' := by rintro rfl; exact absurd hb.1 (by decide)
  have h6 : ¬ c = '+' := by rintro rfl; exact absurd hb.1 (by decide)
  exact ⟨by simp [isJsSpace, h1, h2, h3, h4], h5, h6⟩

theorem parseIntBase10_digits {s : String} (hne : s.data ≠ [])
    (hd : ∀ c ∈ s.data, c.isDigit = true) :
    parseIntBase10 s = some ((digitsToNat s.data : Nat) : Int) := by
  obtain ⟨c, rest, hcs⟩ : ∃ c rest, s.data = c :: rest := by
    cases hsd : s.data with
    | nil => exact absurd hsd hne
    | cons c rest => exact ⟨c, rest, rfl⟩
  have hc : c.isDigit = true := hd c (by rw [hcs]; exact List.mem_cons_self _ _)
  have hs := digit_not_special hc
  have hld : leadingDigits (c :: rest) = c :: rest := by
    unfold leadingDigits
    rw [List.takeWhile_eq_self_iff.2]
    intro x hx
    exact hd x (by rw [hcs]; exact hx)
  simp only [parseIntBase10, hcs,
    List.dropWhile_cons_of_neg (show ¬ (isJsSpace c = true) by simp [hs.1]),
    if_neg hs.2.1, if_neg hs.2.2, hld]
  rw [if_neg (by simp)]

theorem jsIntToString_natCast (n : Nat) :
    jsIntToString (n : Int) = String.mk (natDigits n) := by
  unfold jsIntToString
  rw [if_neg (not_lt.2 (Int.natCast_nonneg n)), Int.toNat_natCast]

theorem formatGradeLevel_parse_some {s : String} {n : Int} (hne : ¬ s = "")
    (hPK : ¬ s = "PK") (hKG : ¬ s = "KG") (hUG : ¬ s = "UG")
    (hparse : parseIntBase10 s = some n) :
    formatGradeLevel (some s) = some (jsIntToString n) := by
  unfold formatGradeLevel
  dsimp only
  rw [if_neg hne, if_neg hPK, if_neg hKG, if_neg hUG, hparse]

theorem formatGradeLevel_parse_none {s : String} (hne : ¬ s = "")
    (hPK : ¬ s = "PK") (hKG : ¬ s = "KG") (hUG : ¬ s = "UG")
    (hparse : parseIntBase10 s = none) :
    formatGradeLevel (some s) = some s := by
  unfold formatGradeLevel
  dsimp only
  rw [if_neg hne, if_neg hPK, if_neg hKG, if_neg hUG, hparse]

/-- C7 — corrected.  The grade code `1X` is neither a special code nor purely
numeric, so by the claim it should pass through unchanged; but
`parseInt("1X", 10)` parses the digit prefix and the function returns `"1"`. -/
theorem C7_counterexample :
    formatGradeLevel (some "1X") = some "1" ∧ ¬ ("1X" : String) = "1" := by
  constructor
  · decide
  · decide

/-- C7 (amended).  `PK`, `KG`, `UG` are mapped to `Pre-K`, `K`, `Ungraded`;
purely numeric codes are replaced by the canonical decimal rendering of their
value, which strips leading zeros; codes whose leading characters parse as an
integer are replaced by that integer's decimal string (so `1X` becomes `1`);
only codes that `parseInt` cannot parse at all pass through unchanged. -/
theorem C7_amended_grade_format :
    formatGradeLevel (some "PK") = some "Pre-K"
    ∧ formatGradeLevel (some "KG") = some "K"
    ∧ formatGradeLevel (some "UG") = some "Ungraded"
    ∧ (∀ s : String, ¬ s = "" → s.data.all Char.isDigit = true →
        formatGradeLevel (some s) = some (stripLeadingZeros s))
    ∧ (∀ s : String, ¬ s = "" → ¬ s = "PK" → ¬ s = "KG" → ¬ s = "UG" →
        parseIntBase10 s = none → formatGradeLevel (some s) = some s)
    ∧ (∀ (s : String) (n : Int), ¬ s = "" → ¬ s = "PK" → ¬ s = "KG" → ¬ s = "UG" →
        parseIntBase10 s = some n → formatGradeLevel (some s) = some (jsIntToString n)) := by
  refine ⟨by decide, by decide, by decide, ?_, ?_, ?_⟩
  · intro s hne hall
    have hd : ∀ c ∈ s.data, c.isDigit = true := fun c hc => List.all_eq_true.1 hall c hc
    have hdata : s.data ≠ [] := by
      intro h
      apply hne
      cases s with
      | mk data =>
        simp only at h
        rw [h]
    have hPK : ¬ s = "PK" := by rintro rfl; exact absurd (hd 'P' (by decide)) (by decide)
    have hKG : ¬ s = "KG" := by rintro rfl; exact absurd (hd 'K' (by decide)) (by decide)
    have hUG : ¬ s = "UG" := by rintro rfl; exact absurd (hd 'U' (by decide)) (by decide)
    have hparse := parseIntBase10_digits hdata hd
    rw [formatGradeLevel_parse_some hne hPK hKG hUG hparse, jsIntToString_natCast]
    congr 1
    unfold stripLeadingZeros
    cases hdz : s.data.dropWhile (fun c => c = '0') with
    | nil =>
      have hz : digitsToNat s.data = 0 := by
        rw [← digitsToNat_dropZeros s.data, hdz]
        rfl
      rw [hz]
      simp only [hdz, List.isEmpty_nil, if_pos]
      decide
    | cons c tl =>
      have hcm : c ∈ s.data :=
        mem_of_mem_dropWhile (p := fun c => decide (c = '0')) (by rw [hdz]; exact List.mem_cons_self _ _)
      have hc0 : ¬ c = '0' := by
        have := dropWhile_head_false (fun c => decide (c = '0')) s.data c tl hdz
        simpa using this
      have hv : digitsToNat s.data = digitsToNat (c :: tl) := by
        rw [← digitsToNat_dropZeros s.data, hdz]
      have hrt : natDigits (digitsToNat (c :: tl)) = c :: tl := by
        apply natDigits_digitsToNat
        · intro x hx
          exact hd x (mem_of_mem_dropWhile (p := fun c => decide (c = '0')) (by rw [hdz]; exact hx))
        · simp
        · intro h
          simp only [List.head?_cons, Option.some.injEq] at h
          exact absurd h hc0
      rw [hv, hrt]
      simp [hdz]
  · intro s hne hPK hKG hUG hparse
    exact formatGradeLevel_parse_none hne hPK hKG hUG hparse
  · intro s n hne hPK hKG hUG hparse
    exact formatGradeLevel_parse_some hne hPK hKG hUG hparse

/-- C7 witness: the grade code `07` is rendered with its leading zero
stripped. -/
theorem C7_amended_grade_format_witness :
    formatGradeLevel (some "07") = some (stripLeadingZeros "07") :=
  C7_amended_grade_format.2.2.2.1 "07" (by decide) (by decide)

-- ---------------------------------------------------------------------------
-- Coordinate validation (C3) and the unbuilt-index path (C10)
-- ---------------------------------------------------------------------------

theorem badCoordinate_false_of_validate_none {lat lng : JsNum}
    (hv : validateCoordinates lat lng = none) : badCoordinate lat lng = false := by
  unfold validateCoordinates at hv
  by_cases h1 : (lat.isNaN || lng.isNaN) = true
  · rw [if_pos h1] at hv; cases hv
  rw [if_neg h1] at hv
  by_cases h2 : (lat.lt (.num 18) || (JsNum.num 72).lt lat) = true
  · rw [if_pos h2] at hv; cases hv
  rw [if_neg h2] at hv
  by_cases h3 : (lng.lt (.num (-180)) || (JsNum.num (-65)).lt lng) = true
  · rw [if_pos h3] at hv; cases hv
  simp only [Bool.or_eq_true, not_or] at h1 h2 h3
  unfold badCoordinate
  cases lat <;> cases lng <;>
    simp_all [JsNum.isNaN, JsNum.lt, latOutsideRange, lngOutsideRange]

/-- C3 — confirmed.  Any coordinate pair with a NaN component, an infinite
component, or a finite component outside lat ∈ [18, 72] / lng ∈ [-180, -65] is
rejected by the `/lookup` route with a 400 validation error, the state is not
touched, and no `Exact` result can be produced; the four range endpoints
themselves pass validation. -/
theorem C3_validation_rejects :
    (∀ (G : Type) (contains : G → ℚ → ℚ → Bool) (simplifyGeom : G → G)
        (st : ServerState G) (lat lng : JsNum), badCoordinate lat lng = true →
        ∃ e, postLookup contains simplifyGeom st lat lng = (SingleResponse.invalid e, st))
    ∧ validateCoordinates (.num 18) (.num (-100)) = none
    ∧ validateCoordinates (.num 72) (.num (-100)) = none
    ∧ validateCoordinates (.num 40) (.num (-180)) = none
    ∧ validateCoordinates (.num 40) (.num (-65)) = none := by
  refine ⟨?_, by decide, by decide, by decide, by decide⟩
  intro G contains simplifyGeom st lat lng hbad
  rcases hv : validateCoordinates lat lng with _ | e
  · exact absurd (badCoordinate_false_of_validate_none hv) (by rw [hbad]; simp)
  · exact ⟨e, by simp only [postLookup, hv]⟩

/-- C3 witness: (0, 0) — the Gulf of Guinea probe of the test fixtures — is
rejected without touching the server state. -/
theorem C3_validation_rejects_witness :
    ∃ e, postLookup wContains wSimplify wStateEmpty (JsNum.num 0) (JsNum.num 0)
      = (SingleResponse.invalid e, wStateEmpty) :=
  C3_validation_rejects.1 Nat wContains wSimplify wStateEmpty (JsNum.num 0) (JsNum.num 0)
    (by decide)

/-- C10 — confirmed.  When the spatial index has not been built,
`lookupSchoolDistrict` returns the not-found-shaped result (status false and
null district id/name) and leaves the state untouched; the in-memory design's
lookup does the same when its district cache is null. -/
theorem C10_unbuilt_index_not_found :
    (∀ (G : Type) (contains : G → ℚ → ℚ → Bool) (simplifyGeom : G → G)
        (st : ServerState G) (lat lng : ℚ), st.spatialIndex = none →
        lookupSchoolDistrict contains simplifyGeom st lat lng = (notFoundResult, st))
    ∧ (∀ (G : Type) (contains : G → ℚ → ℚ → Bool) (lat lng : ℚ),
        lookupSchoolDistrictMem contains none lat lng = notFoundResult) := by
  constructor
  · intro G contains simplifyGeom st lat lng h
    unfold lookupSchoolDistrict
    rw [h]
  · intro G contains lat lng
    rfl

/-- C10 witness: a concrete unbuilt state answers not-found unchanged. -/
theorem C10_unbuilt_index_not_found_witness :
    lookupSchoolDistrict wContains wSimplify wStateNoIndex 40 (-100)
      = (notFoundResult, wStateNoIndex) :=
  C10_unbuilt_index_not_found.1 Nat wContains wSimplify wStateNoIndex 40 (-100) rfl

-- ---------------------------------------------------------------------------
-- Geometry-loading lemmas
-- ---------------------------------------------------------------------------

theorem truthyStr_iff (s : Option String) :
    truthyStr s = true ↔ ∃ t, s = some t ∧ ¬ t = "" := by
  cases s <;> simp [truthyStr]

theorem loadFresh_fields {G : Type} (simplifyGeom : G → G) (st : ServerState G)
    (i : Nat) (did : Option String) :
    (loadFresh simplifyGeom st i did).2.spatialIndex = st.spatialIndex
    ∧ (loadFresh simplifyGeom st i did).2.shapefileRecords = st.shapefileRecords
    ∧ (loadFresh simplifyGeom st i did).2.districtPropertiesMap = st.districtPropertiesMap
    ∧ (loadFresh simplifyGeom st i did).2.geometryCacheSize = st.geometryCacheSize := by
  unfold loadFresh
  split
  · exact ⟨rfl, rfl, rfl, rfl⟩
  · split
    · split
      · exact ⟨rfl, rfl, rfl, rfl⟩
      · exact ⟨rfl, rfl, rfl, rfl⟩
    · exact ⟨rfl, rfl, rfl, rfl⟩

theorem loadDistrictGeometry_fields {G : Type} (simplifyGeom : G → G) (st : ServerState G)
    (i : Nat) (did : Option String) :
    (loadDistrictGeometry simplifyGeom st i did).2.spatialIndex = st.spatialIndex
    ∧ (loadDistrictGeometry simplifyGeom st i did).2.shapefileRecords = st.shapefileRecords
    ∧ (loadDistrictGeometry simplifyGeom st i did).2.districtPropertiesMap
        = st.districtPropertiesMap
    ∧ (loadDistrictGeometry simplifyGeom st i did).2.geometryCacheSize
        = st.geometryCacheSize := by
  unfold loadDistrictGeometry
  split
  · split
    · exact ⟨rfl, rfl, rfl, rfl⟩
    · exact loadFresh_fields simplifyGeom st i did
  · exact loadFresh_fields simplifyGeom st i did

theorem mem_cache_get {α : Type} {c : LRUCache α} {k : String} {p : String × α}
    (h : p ∈ ((c.get k).2).cache) : p ∈ c.cache := by
  rcases hl : lookupKey c.cache k with _ | v
  · rw [LRUCache.get_miss _ _ hl] at h
    exact h
  · rw [LRUCache.get_hit _ _ _ hl] at h
    dsimp only at h
    rcases List.mem_append.1 h with h | h
    · exact eraseKey_subset p h
    · simp only [List.mem_singleton] at h
      rw [h]
      exact mem_of_lookupKey hl

theorem mem_cache_set {α : Type} {c : LRUCache α} {k : String} {v : α} {p : String × α}
    (h : p ∈ (c.set k v).cache) : p ∈ c.cache ∨ p = (k, v) := by
  rw [LRUCache.set_cache] at h
  rcases List.mem_append.1 h with h | h
  · left
    split at h
    · exact eraseKey_subset p h
    · split at h
      · exact List.mem_of_mem_tail h
      · exact h
  · right
    simpa using h

theorem mem_cache_loadFresh {G : Type} {simplifyGeom : G → G} {st : ServerState G}
    {i : Nat} {did : Option String} {p : String × G}
    (h : p ∈ ((loadFresh simplifyGeom st i did).2).geometryCache.cache) :
    p ∈ st.geometryCache.cache ∨
      (∃ records, st.shapefileRecords = some records ∧ did = some p.1 ∧
        decodeRecord simplifyGeom records i = some p.2) := by
  unfold loadFresh at h
  split at h
  · exact Or.inl h
  · rename_i records hrecs
    split at h
    · rename_i simplified hdec
      split at h
      · rename_i hce
        dsimp only at h
        rcases mem_cache_set h with h | h
        · exact Or.inl h
        · right
          have ht : truthyStr did = true := by
            unfold cacheEnabled at hce
            rw [Bool.and_eq_true] at hce
            exact hce.1
          obtain ⟨id, hdid, hidne⟩ := (truthyStr_iff did).1 ht
          refine ⟨records, hrecs, ?_, ?_⟩
          · rw [hdid, h]
            simp [hdid]
          · rw [h]
            simpa using hdec
      · exact Or.inl h
    · exact Or.inl h

theorem mem_cache_load {G : Type} {simplifyGeom : G → G} {st : ServerState G}
    {i : Nat} {did : Option String} {p : String × G}
    (h : p ∈ ((loadDistrictGeometry simplifyGeom st i did).2).geometryCache.cache) :
    p ∈ st.geometryCache.cache ∨
      (∃ records, st.shapefileRecords = some records ∧ did = some p.1 ∧
        decodeRecord simplifyGeom records i = some p.2) := by
  unfold loadDistrictGeometry at h
  split at h
  · split at h
    · dsimp only at h
      exact Or.inl (mem_cache_get h)
    · exact mem_cache_loadFresh h
  · exact mem_cache_loadFresh h

theorem loadFresh_fst {G : Type} (simplifyGeom : G → G) (st : ServerState G)
    (i : Nat) (did : Option String) {records : List (ShapeRecord G)}
    (h : st.shapefileRecords = some records) :
    (loadFresh simplifyGeom st i did).1 = decodeRecord simplifyGeom records i := by
  unfold loadFresh
  split
  · rename_i hn
    rw [h] at hn
    cases hn
  · rename_i records' hr
    rw [h] at hr
    obtain rfl := Option.some.inj hr
    split
    · rename_i simplified hdec
      split
      · rw [hdec]
      · rw [hdec]
    · rename_i hdec
      rw [hdec]

theorem lt_length_of_bind_some {G : Type} {records : List (ShapeRecord G)} {i : Nat}
    {id : String} (h : (records.get? i).bind recGEOID = some id) : i < records.length := by
  rcases hg : records.get? i with _ | rec
  · rw [hg] at h
    cases h
  · exact (List.get?_eq_some.1 hg).1

theorem load_fst_consistent {G : Type} {simplifyGeom : G → G}
    {records : List (ShapeRecord G)} (st : ServerState G) (i : Nat) (did : Option String)
    (hrecs : st.shapefileRecords = some records)
    (hcc : CacheConsistent simplifyGeom records st.geometryCache)
    (hid : (records.get? i).bind recGEOID = did) :
    (loadDistrictGeometry simplifyGeom st i did).1 = decodeRecord simplifyGeom records i := by
  unfold loadDistrictGeometry
  by_cases hce : cacheEnabled st did = true
  · rw [if_pos hce]
    have ht : truthyStr did = true := by
      unfold cacheEnabled at hce
      rw [Bool.and_eq_true] at hce
      exact hce.1
    obtain ⟨id, hdid, hidne⟩ := (truthyStr_iff did).1 ht
    subst hdid
    rcases hl : (st.geometryCache.get ((some id).getD "")).1 with _ | g
    · exact loadFresh_fst simplifyGeom st i (some id) hrecs
    · have hlk : lookupKey st.geometryCache.cache id = some g := by
        unfold LRUCache.get at hl
        rcases h2 : lookupKey st.geometryCache.cache ((some id).getD "") with _ | w
        · rw [h2] at hl
          cases hl
        · rw [h2] at hl
          simp only at hl
          obtain rfl := Option.some.inj hl
          simpa using h2
      have hmem := mem_of_lookupKey hlk
      have hlen : i < records.length := lt_length_of_bind_some hid
      have hdec := hcc (id, g) hmem i hlen (by simpa using hid)
      exact hdec.symm
  · rw [if_neg hce]
    exact loadFresh_fst simplifyGeom st i did hrecs

theorem load_preserves_consistent {G : Type} {simplifyGeom : G → G}
    {records : List (ShapeRecord G)} (st : ServerState G) (i : Nat) (did : Option String)
    (hrecs : st.shapefileRecords = some records)
    (hcc : CacheConsistent simplifyGeom records st.geometryCache)
    (hu : UniqueIds records)
    (hid : (records.get? i).bind recGEOID = did) :
    CacheConsistent simplifyGeom records
      (loadDistrictGeometry simplifyGeom st i did).2.geometryCache := by
  intro p hp j hj hbind
  rcases mem_cache_load hp with hmem | ⟨records', hr', hdid', hdec'⟩
  · exact hcc p hmem j hj hbind
  · rw [hrecs] at hr'
    obtain rfl := Option.some.inj hr'
    have hbi : (records.get? i).bind recGEOID = some p.1 := by rw [hid, hdid']
    have hilen : i < records.length := lt_length_of_bind_some hbi
    have hij : j = i := hu j hj i hilen (by rw [hbind]; simp) (by rw [hbind, hbi])
    rw [hij]
    exact hdec'

theorem mkHitResult_status {G : Type} (st : ServerState G) (c : IndexedDistrict) :
    (mkHitResult st c).status = true := by
  unfold mkHitResult
  dsimp only
  split <;> rfl

theorem mkHitResult_ne_notFound {G : Type} (st : ServerState G) (c : IndexedDistrict) :
    ¬ mkHitResult st c = notFoundResult := by
  intro h
  have := congrArg SchoolDistrictLookupResult.status h
  rw [mkHitResult_status] at this
  cases this

theorem mkHitResult_congr {G : Type} (st1 st2 : ServerState G) (c : IndexedDistrict)
    (h : st1.districtPropertiesMap = st2.districtPropertiesMap) :
    mkHitResult st1 c = mkHitResult st2 c := by
  unfold mkHitResult
  rw [h]

-- ---------------------------------------------------------------------------
-- The candidate loop
-- ---------------------------------------------------------------------------

theorem processCandidates_append {G : Type} (contains : G → ℚ → ℚ → Bool)
    (simplifyGeom : G → G) (lat lng : ℚ) :
    ∀ (xs ys : List IndexedDistrict) (st st' : ServerState G),
      processCandidates contains simplifyGeom lat lng st xs = (notFoundResult, st') →
      processCandidates contains simplifyGeom lat lng st (xs ++ ys) =
        processCandidates contains simplifyGeom lat lng st' ys := by
  intro xs
  induction xs with
  | nil =>
    intro ys st st' h
    simp only [processCandidates] at h
    obtain ⟨-, rfl⟩ := Prod.mk.inj h
    rfl
  | cons c cs ih =>
    intro ys st st' h
    simp only [processCandidates] at h ⊢
    rcases hg : (loadDistrictGeometry simplifyGeom st c.metadata.recordIndex
        c.metadata.districtId).1 with _ | g
    · rw [hg] at h
      exact ih ys _ st' h
    · rw [hg] at h
      replace h :
          (if contains g lng lat = true then
            (mkHitResult (loadDistrictGeometry simplifyGeom st c.metadata.recordIndex
              c.metadata.districtId).2 c,
             (loadDistrictGeometry simplifyGeom st c.metadata.recordIndex
              c.metadata.districtId).2)
          else processCandidates contains simplifyGeom lat lng
            (loadDistrictGeometry simplifyGeom st c.metadata.recordIndex
              c.metadata.districtId).2 cs) = (notFoundResult, st') := h
      show (if contains g lng lat = true then
            (mkHitResult (loadDistrictGeometry simplifyGeom st c.metadata.recordIndex
              c.metadata.districtId).2 c,
             (loadDistrictGeometry simplifyGeom st c.metadata.recordIndex
              c.metadata.districtId).2)
          else processCandidates contains simplifyGeom lat lng
            (loadDistrictGeometry simplifyGeom st c.metadata.recordIndex
              c.metadata.districtId).2 (cs ++ ys))
          = processCandidates contains simplifyGeom lat lng st' ys
      by_cases hc : contains g lng lat = true
      · rw [if_pos hc] at h
        exact absurd (Prod.mk.inj h).1 (mkHitResult_ne_notFound _ c)
      · rw [if_neg hc] at h
        rw [if_neg hc]
        exact ih ys _ st' h

/-- C2 — confirmed.  The lookup tests the bbox-index candidates in index
order, decoding each via the LRU-fronted loader; as soon as one candidate's
decoded geometry contains the point, the result is the Exact record built
from that candidate's metadata and stored attributes, the final state is the
state right after that decode, and the candidates after the hit are never
touched (the result does not depend on `post`). -/
theorem C2_first_hit_exact {G : Type} (contains : G → ℚ → ℚ → Bool)
    (simplifyGeom : G → G) (st st' st'' : ServerState G) (lat lng : ℚ)
    (idx pre post : List IndexedDistrict) (c : IndexedDistrict) (g : G)
    (hidx : st.spatialIndex = some idx)
    (hsearch : searchIndex idx lng lat = pre ++ c :: post)
    (hpre : processCandidates contains simplifyGeom lat lng st pre = (notFoundResult, st'))
    (hload : loadDistrictGeometry simplifyGeom st' c.metadata.recordIndex
      c.metadata.districtId = (some g, st''))
    (hcont : contains g lng lat = true) :
    lookupSchoolDistrict contains simplifyGeom st lat lng = (mkHitResult st'' c, st'') := by
  unfold lookupSchoolDistrict
  rw [hidx]
  dsimp only
  rw [hsearch, processCandidates_append contains simplifyGeom lat lng pre (c :: post) st st' hpre]
  simp only [processCandidates]
  rw [hload]
  dsimp only
  rw [if_pos hcont]

/-- C2 witness: over a one-district store whose polygon contains the query
point, the lookup returns the Exact result of that district and caches its
geometry. -/
theorem C2_first_hit_exact_witness :
    lookupSchoolDistrict wContains wSimplify wStateEmpty 40 (-100)
      = (mkHitResult wStateCached wCand, wStateCached) :=
  C2_first_hit_exact wContains wSimplify wStateEmpty wStateEmpty wStateCached 40 (-100)
    (buildSpatialIndex wBbox wRecords).1 [] [] wCand 1
    rfl (by decide) rfl (by decide) (by decide)

-- ---------------------------------------------------------------------------
-- The no-hit path (C1)
-- ---------------------------------------------------------------------------

theorem processCandidates_cons_none {G : Type} (contains : G → ℚ → ℚ → Bool)
    (simplifyGeom : G → G) (lat lng : ℚ) (st : ServerState G) (c : IndexedDistrict)
    (cs : List IndexedDistrict)
    (h : (loadDistrictGeometry simplifyGeom st c.metadata.recordIndex
      c.metadata.districtId).1 = none) :
    processCandidates contains simplifyGeom lat lng st (c :: cs) =
      processCandidates contains simplifyGeom lat lng
        (loadDistrictGeometry simplifyGeom st c.metadata.recordIndex
          c.metadata.districtId).2 cs := by
  simp only [processCandidates]
  rw [h]

theorem processCandidates_cons_some {G : Type} (contains : G → ℚ → ℚ → Bool)
    (simplifyGeom : G → G) (lat lng : ℚ) (st : ServerState G) (c : IndexedDistrict)
    (cs : List IndexedDistrict) (g : G)
    (h : (loadDistrictGeometry simplifyGeom st c.metadata.recordIndex
      c.metadata.districtId).1 = some g) :
    processCandidates contains simplifyGeom lat lng st (c :: cs) =
      if contains g lng lat = true then
        (mkHitResult (loadDistrictGeometry simplifyGeom st c.metadata.recordIndex
          c.metadata.districtId).2 c,
         (loadDistrictGeometry simplifyGeom st c.metadata.recordIndex
          c.metadata.districtId).2)
      else processCandidates contains simplifyGeom lat lng
        (loadDistrictGeometry simplifyGeom st c.metadata.recordIndex
          c.metadata.districtId).2 cs := by
  simp only [processCandidates]
  rw [h]

theorem contains_decoded_false {G : Type} {contains : G → ℚ → ℚ → Bool}
    {simplifyGeom : G → G} {records : List (ShapeRecord G)} {i : Nat} {g : G}
    {lng lat : ℚ}
    (hstore : anyStoredHit contains simplifyGeom records lng lat = false)
    (hdec : decodeRecord simplifyGeom records i = some g) :
    contains g lng lat = false := by
  unfold decodeRecord at hdec
  rcases hgi : records.get? i with _ | rec
  · rw [hgi] at hdec
    cases hdec
  · rw [hgi] at hdec
    dsimp only at hdec
    rcases hgg : rec.geometry with _ | sg
    · rw [hgg] at hdec
      cases hdec
    · rw [hgg] at hdec
      obtain rfl := Option.some.inj hdec
      have hmem : rec ∈ records := List.get?_mem hgi
      unfold anyStoredHit at hstore
      rw [List.any_eq_false] at hstore
      have := hstore rec hmem
      rw [hgg] at this
      simpa using this

theorem loadFresh_fst_spec {G : Type} {simplifyGeom : G → G} {st : ServerState G}
    {i : Nat} {did : Option String} {g : G}
    (h : (loadFresh simplifyGeom st i did).1 = some g) :
    ∃ records, st.shapefileRecords = some records ∧
      decodeRecord simplifyGeom records i = some g := by
  unfold loadFresh at h
  split at h
  · cases h
  · rename_i records hrecs
    split at h
    · rename_i simplified hdec
      split at h
      · dsimp only at h
        obtain rfl := Option.some.inj h
        exact ⟨records, hrecs, hdec⟩
      · dsimp only at h
        obtain rfl := Option.some.inj h
        exact ⟨records, hrecs, hdec⟩
    · cases h

theorem load_fst_spec {G : Type} {simplifyGeom : G → G} {st : ServerState G}
    {i : Nat} {did : Option String} {g : G}
    (h : (loadDistrictGeometry simplifyGeom st i did).1 = some g) :
    (∃ p ∈ st.geometryCache.cache, p.2 = g) ∨
      (∃ records, st.shapefileRecords = some records ∧
        decodeRecord simplifyGeom records i = some g) := by
  unfold loadDistrictGeometry at h
  by_cases hce : cacheEnabled st did = true
  · rw [if_pos hce] at h
    rcases hl : (st.geometryCache.get (did.getD "")).1 with _ | gq
    · rw [hl] at h
      exact Or.inr (loadFresh_fst_spec h)
    · rw [hl] at h
      dsimp only at h
      obtain rfl := Option.some.inj h
      left
      unfold LRUCache.get at hl
      rcases h2 : lookupKey st.geometryCache.cache (did.getD "") with _ | w
      · rw [h2] at hl
        cases hl
      · rw [h2] at hl
        dsimp only at hl
        obtain rfl := Option.some.inj hl
        exact ⟨(did.getD "", w), mem_of_lookupKey h2, rfl⟩
  · rw [if_neg hce] at h
    exact Or.inr (loadFresh_fst_spec h)

theorem load_no_cached_hit {G : Type} {contains : G → ℚ → ℚ → Bool}
    {simplifyGeom : G → G} (st : ServerState G) (i : Nat) (did : Option String)
    {records : List (ShapeRecord G)} (lng lat : ℚ)
    (hrecs : st.shapefileRecords = some records)
    (hcache : anyCachedHit contains st.geometryCache lng lat = false)
    (hstore : anyStoredHit contains simplifyGeom records lng lat = false) :
    anyCachedHit contains (loadDistrictGeometry simplifyGeom st i did).2.geometryCache
      lng lat = false := by
  unfold anyCachedHit at hcache ⊢
  rw [List.any_eq_false] at hcache ⊢
  intro p hp
  rcases mem_cache_load hp with hm | ⟨records', hr', hdid, hdec⟩
  · exact hcache p hm
  · rw [hrecs] at hr'
    obtain rfl := Option.some.inj hr'
    simp [contains_decoded_false hstore hdec]

theorem processCandidates_no_hit {G : Type} (contains : G → ℚ → ℚ → Bool)
    (simplifyGeom : G → G) (lat lng : ℚ) (records : List (ShapeRecord G)) :
    ∀ (cands : List IndexedDistrict) (st : ServerState G),
      st.shapefileRecords = some records →
      anyCachedHit contains st.geometryCache lng lat = false →
      anyStoredHit contains simplifyGeom records lng lat = false →
      (processCandidates contains simplifyGeom lat lng st cands).1 = notFoundResult := by
  intro cands
  induction cands with
  | nil => intro st h1 h2 h3; rfl
  | cons c cs ih =>
    intro st h1 h2 h3
    have hf2 : (loadDistrictGeometry simplifyGeom st c.metadata.recordIndex
        c.metadata.districtId).2.shapefileRecords = some records := by
      rw [(loadDistrictGeometry_fields simplifyGeom st _ _).2.1, h1]
    have hnc := load_no_cached_hit st c.metadata.recordIndex
      c.metadata.districtId lng lat h1 h2 h3
    rcases hg : (loadDistrictGeometry simplifyGeom st c.metadata.recordIndex
        c.metadata.districtId).1 with _ | g
    · rw [processCandidates_cons_none contains simplifyGeom lat lng st c cs hg]
      exact ih _ hf2 hnc h3
    · have hcf : contains g lng lat = false := by
        rcases load_fst_spec hg with ⟨p, hp, rfl⟩ | ⟨records', hr, hdec⟩
        · unfold anyCachedHit at h2
          rw [List.any_eq_false] at h2
          simpa using h2 p hp
        · rw [h1] at hr
          obtain rfl := Option.some.inj hr
          exact contains_decoded_false h3 hdec
      rw [processCandidates_cons_some contains simplifyGeom lat lng st c cs g hg,
        if_neg (by simp [hcf])]
      exact ih _ hf2 hnc h3

/-- C1 — corrected.  There is no nearest-by-centroid fallback in the code: a
non-empty one-district store still answers a valid in-range coordinate with
the not-found-shaped result (status false, null district identifiers) when no
polygon contains the point, contradicting both "Approximate" and "NotFound is
reserved for an empty store". -/
theorem C1_counterexample :
    wRecords.length = 1
    ∧ (lookupSchoolDistrict wContainsNone wSimplify wStateEmpty 40 (-100)).1
        = notFoundResult := by
  constructor
  · rfl
  · decide

/-- C1 (amended).  For a built store, when no cached geometry and no stored
(simplified) geometry contains the query point, the lookup returns the
not-found-shaped result — regardless of whether the store is empty.  There is
no Approximate variant and no nearest-by-centroid fallback. -/
theorem C1_amended_no_fallback {G : Type} (contains : G → ℚ → ℚ → Bool)
    (simplifyGeom : G → G) (st : ServerState G) (lat lng : ℚ)
    (idx : List IndexedDistrict) (records : List (ShapeRecord G))
    (hidx : st.spatialIndex = some idx)
    (hrecs : st.shapefileRecords = some records)
    (hcache : anyCachedHit contains st.geometryCache lng lat = false)
    (hstore : anyStoredHit contains simplifyGeom records lng lat = false) :
    (lookupSchoolDistrict contains simplifyGeom st lat lng).1 = notFoundResult := by
  unfold lookupSchoolDistrict
  rw [hidx]
  exact processCandidates_no_hit contains simplifyGeom lat lng records _ st hrecs hcache hstore

/-- C1 witness: the one-district store with a non-containing polygon yields
the not-found shape. -/
theorem C1_amended_no_fallback_witness :
    (lookupSchoolDistrict wContainsNone wSimplify wStateEmpty 40 (-100)).1
      = notFoundResult :=
  C1_amended_no_fallback wContainsNone wSimplify wStateEmpty 40 (-100)
    (buildSpatialIndex wBbox wRecords).1 wRecords rfl rfl (by decide) (by decide)

-- ---------------------------------------------------------------------------
-- Build soundness and determinism (C9)
-- ---------------------------------------------------------------------------

theorem buildStep_foldl_index_sound {G : Type} (bboxOf : G → ℚ × ℚ × ℚ × ℚ)
    (records : List (ShapeRecord G)) :
    ∀ (l : List (Nat × ShapeRecord G))
      (acc : List IndexedDistrict × List (String × DistrictProperties)),
      (∀ q ∈ l, records.get? q.1 = some q.2) →
      (∀ c ∈ acc.1, ∃ rec, records.get? c.metadata.recordIndex = some rec ∧
        recGEOID rec = c.metadata.districtId ∧ isPolygonal rec = true) →
      ∀ c ∈ (l.foldl (buildStep bboxOf) acc).1,
        ∃ rec, records.get? c.metadata.recordIndex = some rec ∧
          recGEOID rec = c.metadata.districtId ∧ isPolygonal rec = true := by
  intro l
  induction l with
  | nil => intro acc hl hacc c hc; exact hacc c hc
  | cons q l ih =>
    intro acc hl hacc c hc
    rw [List.foldl_cons] at hc
    refine ih (buildStep bboxOf acc q) (fun r hr => hl r (List.mem_cons_of_mem _ hr)) ?_ c hc
    intro c' hc'
    unfold buildStep at hc'
    dsimp only at hc'
    split at hc'
    · rename_i g hg
      split at hc'
      · rename_i htyp
        rcases List.mem_append.1 hc' with h | h
        · exact hacc c' h
        · simp only [List.mem_singleton] at h
          subst h
          refine ⟨q.2, hl q (List.mem_cons_self _ _), rfl, ?_⟩
          unfold isPolygonal
          rw [hg]
          exact htyp
      · exact hacc c' hc'
    · exact hacc c' hc'

theorem build_index_sound {G : Type} (bboxOf : G → ℚ × ℚ × ℚ × ℚ)
    (records : List (ShapeRecord G)) :
    ∀ c ∈ (buildSpatialIndex bboxOf records).1,
      ∃ rec, records.get? c.metadata.recordIndex = some rec ∧
        recGEOID rec = c.metadata.districtId ∧ isPolygonal rec = true := by
  intro c hc
  exact buildStep_foldl_index_sound bboxOf records records.enum ([], [])
    (fun q hq => List.mem_enum_iff_get?.mp hq) (by simp) c hc

theorem mem_of_mem_searchIndex {idx : List IndexedDistrict} {lng lat : ℚ}
    {c : IndexedDistrict} (h : c ∈ searchIndex idx lng lat) : c ∈ idx :=
  (List.mem_filter.1 h).1

theorem processCandidates_fst_congr {G : Type} (contains : G → ℚ → ℚ → Bool)
    (simplifyGeom : G → G) (lat lng : ℚ) (records : List (ShapeRecord G))
    (hu : UniqueIds records) :
    ∀ (cands : List IndexedDistrict) (st1 st2 : ServerState G),
      st1.shapefileRecords = some records → st2.shapefileRecords = some records →
      st1.districtPropertiesMap = st2.districtPropertiesMap →
      CacheConsistent simplifyGeom records st1.geometryCache →
      CacheConsistent simplifyGeom records st2.geometryCache →
      (∀ c ∈ cands,
        (records.get? c.metadata.recordIndex).bind recGEOID = c.metadata.districtId) →
      (processCandidates contains simplifyGeom lat lng st1 cands).1 =
        (processCandidates contains simplifyGeom lat lng st2 cands).1 := by
  intro cands
  induction cands with
  | nil => intros; rfl
  | cons c cs ih =>
    intro st1 st2 h1 h2 hp hcc1 hcc2 hok
    have hid := hok c (List.mem_cons_self _ _)
    have hf1 := load_fst_consistent st1 c.metadata.recordIndex c.metadata.districtId h1 hcc1 hid
    have hf2 := load_fst_consistent st2 c.metadata.recordIndex c.metadata.districtId h2 hcc2 hid
    have hok' : ∀ c' ∈ cs,
        (records.get? c'.metadata.recordIndex).bind recGEOID = c'.metadata.districtId :=
      fun c' hc' => hok c' (List.mem_cons_of_mem _ hc')
    have hfld1 := loadDistrictGeometry_fields simplifyGeom st1 c.metadata.recordIndex
      c.metadata.districtId
    have hfld2 := loadDistrictGeometry_fields simplifyGeom st2 c.metadata.recordIndex
      c.metadata.districtId
    have hrec1 : (loadDistrictGeometry simplifyGeom st1 c.metadata.recordIndex
        c.metadata.districtId).2.shapefileRecords = some records := by rw [hfld1.2.1, h1]
    have hrec2 : (loadDistrictGeometry simplifyGeom st2 c.metadata.recordIndex
        c.metadata.districtId).2.shapefileRecords = some records := by rw [hfld2.2.1, h2]
    have hprops : (loadDistrictGeometry simplifyGeom st1 c.metadata.recordIndex
        c.metadata.districtId).2.districtPropertiesMap =
        (loadDistrictGeometry simplifyGeom st2 c.metadata.recordIndex
          c.metadata.districtId).2.districtPropertiesMap := by
      rw [hfld1.2.2.1, hfld2.2.2.1, hp]
    have hcc1' := load_preserves_consistent st1 c.metadata.recordIndex
      c.metadata.districtId h1 hcc1 hu hid
    have hcc2' := load_preserves_consistent st2 c.metadata.recordIndex
      c.metadata.districtId h2 hcc2 hu hid
    rcases hdec : decodeRecord simplifyGeom records c.metadata.recordIndex with _ | g
    · rw [processCandidates_cons_none contains simplifyGeom lat lng st1 c cs (hf1.trans hdec),
        processCandidates_cons_none contains simplifyGeom lat lng st2 c cs (hf2.trans hdec)]
      exact ih _ _ hrec1 hrec2 hprops hcc1' hcc2' hok'
    · rw [processCandidates_cons_some contains simplifyGeom lat lng st1 c cs g (hf1.trans hdec),
        processCandidates_cons_some contains simplifyGeom lat lng st2 c cs g (hf2.trans hdec)]
      by_cases hc : contains g lng lat = true
      · rw [if_pos hc, if_pos hc]
        dsimp only
        exact mkHitResult_congr _ _ c hprops
      · rw [if_neg hc, if_neg hc]
        exact ih _ _ hrec1 hrec2 hprops hcc1' hcc2' hok'

/-- C9 — confirmed.  Over the same built store with unique GEOIDs, the lookup
result does not depend on the geometry-cache state, for every pair of
consistent cache states (every state the server can reach keeps only
correctly-decoded geometries): a cached geometry yields the same containment
answer and attributes as a fresh decode. -/
theorem C9_lookup_deterministic {G : Type} (contains : G → ℚ → ℚ → Bool)
    (simplifyGeom : G → G) (bboxOf : G → ℚ × ℚ × ℚ × ℚ) (cacheSize : Nat)
    (records : List (ShapeRecord G)) (c1 c2 : LRUCache G) (lat lng : ℚ)
    (hu : UniqueIds records)
    (h1 : CacheConsistent simplifyGeom records c1)
    (h2 : CacheConsistent simplifyGeom records c2) :
    (lookupSchoolDistrict contains simplifyGeom
      (mkServerState bboxOf cacheSize records c1) lat lng).1
      = (lookupSchoolDistrict contains simplifyGeom
          (mkServerState bboxOf cacheSize records c2) lat lng).1 := by
  unfold lookupSchoolDistrict mkServerState
  dsimp only
  apply processCandidates_fst_congr contains simplifyGeom lat lng records hu
  · rfl
  · rfl
  · rfl
  · exact h1
  · exact h2
  · intro c hc
    obtain ⟨rec, hget, hgeo, hpoly⟩ :=
      build_index_sound bboxOf records c (mem_of_mem_searchIndex hc)
    rw [hget, Option.some_bind]
    exact hgeo

/-- C9 witness: the lookup answer over the one-district store is the same for
the empty cache and for a consistent pre-populated cache. -/
theorem C9_lookup_deterministic_witness :
    (lookupSchoolDistrict wContains wSimplify
      (mkServerState wBbox 10 wRecords (LRUCache.empty Nat 10)) 40 (-100)).1
      = (lookupSchoolDistrict wContains wSimplify
          (mkServerState wBbox 10 wRecords ⟨10, [("X", 1)]⟩) 40 (-100)).1 :=
  C9_lookup_deterministic wContains wSimplify wBbox 10 wRecords
    (LRUCache.empty Nat 10) ⟨10, [("X", 1)]⟩ 40 (-100)
    (by unfold UniqueIds; decide) (by unfold CacheConsistent; decide)
    (by unfold CacheConsistent; decide)

-- ---------------------------------------------------------------------------
-- Build-time skipping (C8)
-- ---------------------------------------------------------------------------

theorem mem_mapSet {β : Type} :
    ∀ (l : List (String × β)) (k : String) (v : β) (p : String × β),
      p ∈ mapSet l k v → p ∈ l ∨ p.1 = k := by
  intro l
  induction l with
  | nil =>
    intro k v p hp
    simp only [mapSet, List.mem_singleton] at hp
    right
    rw [hp]
  | cons q rest ih =>
    intro k v p hp
    obtain ⟨k', v'⟩ := q
    unfold mapSet at hp
    by_cases hk : k' = k
    · rw [if_pos hk] at hp
      rcases List.mem_cons.1 hp with h | h
      · right; rw [h]
      · exact Or.inl (List.mem_cons_of_mem _ h)
    · rw [if_neg hk] at hp
      rcases List.mem_cons.1 hp with h | h
      · exact Or.inl (h ▸ List.mem_cons_self _ _)
      · rcases ih k v p h with h' | h'
        · exact Or.inl (List.mem_cons_of_mem _ h')
        · exact Or.inr h'

theorem buildStep_foldl_props_sound {G : Type} (bboxOf : G → ℚ × ℚ × ℚ × ℚ) :
    ∀ (l : List (Nat × ShapeRecord G))
      (acc : List IndexedDistrict × List (String × DistrictProperties)),
      (∀ p ∈ acc.2, ¬ p.1 = "") →
      ∀ p ∈ (l.foldl (buildStep bboxOf) acc).2, ¬ p.1 = "" := by
  intro l
  induction l with
  | nil => intro acc hacc p hp; exact hacc p hp
  | cons q l ih =>
    intro acc hacc p hp
    rw [List.foldl_cons] at hp
    refine ih (buildStep bboxOf acc q) ?_ p hp
    intro p' hp'
    unfold buildStep at hp'
    dsimp only at hp'
    split at hp'
    · split at hp'
      · dsimp only at hp'
        rcases hpr : q.2.props with _ | pr
        · rw [hpr] at hp'
          exact hacc p' hp'
        · rw [hpr] at hp'
          dsimp only at hp'
          rcases hgid : pr.GEOID with _ | id
          · rw [hgid] at hp'
            exact hacc p' hp'
          · rw [hgid] at hp'
            dsimp only at hp'
            by_cases hid : id = ""
            · rw [if_pos hid] at hp'
              exact hacc p' hp'
            · rw [if_neg hid] at hp'
              rcases mem_mapSet acc.2 id (mkDistrictProperties pr) p' hp' with h | h
              · exact hacc p' h
              · rw [h]
                exact hid
      · exact hacc p' hp'
    · exact hacc p' hp'

theorem build_props_nonempty {G : Type} (bboxOf : G → ℚ × ℚ × ℚ × ℚ)
    (records : List (ShapeRecord G)) :
    ∀ p ∈ (buildSpatialIndex bboxOf records).2, ¬ p.1 = "" :=
  buildStep_foldl_props_sound bboxOf records.enum ([], []) (by simp)

theorem loadDistrictsList_ids {G : Type} (records : List (ShapeRecord G)) :
    ∀ d ∈ loadDistrictsList records, ¬ d.districtId = "" := by
  intro d hd
  unfold loadDistrictsList at hd
  obtain ⟨rec, hrec, htr⟩ := List.mem_filterMap.1 hd
  by_cases hpoly : isPolygonal rec = true
  · rw [if_pos hpoly] at htr
    unfold transformDistrict at htr
    rcases hpr : rec.props with _ | p
    · rw [hpr] at htr
      cases htr
    · rw [hpr] at htr
      dsimp only at htr
      by_cases htruthy : (truthyStr p.GEOID && truthyStr p.NAME) = true
      · rw [if_pos htruthy] at htr
        obtain rfl := Option.some.inj htr
        rw [Bool.and_eq_true] at htruthy
        obtain ⟨id, hid, hne⟩ := (truthyStr_iff _).1 htruthy.1
        dsimp only
        rw [hid]
        exact hne
      · rw [if_neg htruthy] at htr
        cases htr
  · rw [if_neg hpoly] at htr
    cases htr

/-- C8 — corrected.  A polygonal record whose GEOID is absent is NOT skipped:
`buildSpatialIndex` still inserts it into the R-tree, with an undefined
district id. -/
theorem C8_counterexample :
    (buildSpatialIndex wBbox [c8Record]).1.length = 1
    ∧ ((buildSpatialIndex wBbox [c8Record]).1.map (fun c => c.metadata.districtId))
        = [none] := by
  constructor
  · decide
  · decide

/-- C8 (amended).  Records whose geometry is not Polygon/MultiPolygon (or
absent) are skipped by the build — every indexed entry corresponds to a
polygonal source record, with the entry's district id equal to that record's
(possibly absent) GEOID.  Records lacking a truthy GEOID contribute no
attribute row, so every stored attribute key is non-empty; and in the
in-memory cache design, every district retained by `transformDistrict`
carries a non-empty district id. -/
theorem C8_amended_build_skips :
    (∀ (G : Type) (bboxOf : G → ℚ × ℚ × ℚ × ℚ) (records : List (ShapeRecord G)),
      ∀ c ∈ (buildSpatialIndex bboxOf records).1,
        ∃ rec, records.get? c.metadata.recordIndex = some rec ∧
          recGEOID rec = c.metadata.districtId ∧ isPolygonal rec = true)
    ∧ (∀ (G : Type) (bboxOf : G → ℚ × ℚ × ℚ × ℚ) (records : List (ShapeRecord G)),
        ∀ p ∈ (buildSpatialIndex bboxOf records).2, ¬ p.1 = "")
    ∧ (∀ (G : Type) (records : List (ShapeRecord G)),
        ∀ d ∈ loadDistrictsList records, ¬ d.districtId = "") := by
  refine ⟨?_, ?_, ?_⟩
  · intro G bboxOf records
    exact build_index_sound bboxOf records
  · intro G bboxOf records
    exact build_props_nonempty bboxOf records
  · intro G records
    exact loadDistrictsList_ids records

/-- C8 witness: the well-formed one-record store indexes its record with its
GEOID. -/
theorem C8_amended_build_skips_witness :
    ∃ rec, wRecords.get? wCand.metadata.recordIndex = some rec ∧
      recGEOID rec = wCand.metadata.districtId ∧ isPolygonal rec = true :=
  C8_amended_build_skips.1 Nat wBbox wRecords wCand (by decide)

-- ---------------------------------------------------------------------------
-- Batch processing (C6)
-- ---------------------------------------------------------------------------

theorem batch_entry_toSingle {G : Type} (contains : G → ℚ → ℚ → Bool)
    (simplifyGeom : G → G) (st : ServerState G) (i : Nat) (lat lng : JsNum) :
    (batchEntry contains simplifyGeom st i lat lng).toSingle
      = (postLookup contains simplifyGeom st lat lng).1 := by
  unfold batchEntry postLookup BatchEntry.toSingle
  rcases hv : validateCoordinates lat lng with _ | e <;> rfl

/-- C6 — corrected.  The empty coordinate list is within the batch limit, but
the route rejects it with "Request body must contain at least one coordinate"
instead of returning an empty result list. -/
theorem C6_counterexample :
    postBatch wContains wSimplify 50 wStateEmpty [] = Except.error BatchError.emptyBody
    ∧ List.length ([] : List (JsNum × JsNum)) ≤ 50 := by
  constructor
  · rfl
  · decide

/-- C6 (amended).  For every NON-empty coordinate list within the batch
limit, the batch route returns one result per input, in input order (the i-th
entry is the per-coordinate processing of the i-th input), and each entry —
its index field dropped — equals the single-lookup route's response for the
same coordinate; in particular `lookup_batch([p])[0]` equals `lookup(p)` up
to the added index field. -/
theorem C6_amended_batch {G : Type} (contains : G → ℚ → ℚ → Bool)
    (simplifyGeom : G → G) (B : Nat) (st : ServerState G)
    (coords : List (JsNum × JsNum)) (hne : ¬ coords = []) (hlen : coords.length ≤ B) :
    postBatch contains simplifyGeom B st coords
      = Except.ok ((coords.enum).map
          (fun p => batchEntry contains simplifyGeom st p.1 p.2.1 p.2.2))
    ∧ ((coords.enum).map
        (fun p => batchEntry contains simplifyGeom st p.1 p.2.1 p.2.2)).length
        = coords.length
    ∧ (∀ (i : Nat) (lat lng : JsNum), coords.get? i = some (lat, lng) →
        ((coords.enum).map
          (fun p => batchEntry contains simplifyGeom st p.1 p.2.1 p.2.2)).get? i
          = some (batchEntry contains simplifyGeom st i lat lng))
    ∧ (∀ lat lng : JsNum,
        (batchEntry contains simplifyGeom st 0 lat lng).toSingle
          = (postLookup contains simplifyGeom st lat lng).1) := by
  refine ⟨?_, ?_, ?_, ?_⟩
  · unfold postBatch
    rw [if_neg (by simpa using hne), if_neg (not_lt.2 hlen)]
  · rw [List.length_map, List.enum_length]
  · intro i lat lng hget
    rw [List.get?_map, List.enum_get?, hget]
    rfl
  · intro lat lng
    exact batch_entry_toSingle contains simplifyGeom st 0 lat lng

/-- C6 witness: a singleton batch is accepted and yields exactly one entry. -/
theorem C6_amended_batch_witness :
    postBatch wContains wSimplify 50 wStateEmpty [(JsNum.num 40, JsNum.num (-100))]
      = Except.ok [batchEntry wContains wSimplify wStateEmpty 0
          (JsNum.num 40) (JsNum.num (-100))] :=
  (C6_amended_batch wContains wSimplify 50 wStateEmpty
    [(JsNum.num 40, JsNum.num (-100))] (by decide) (by decide)).1
